import Mathlib

/-!
Verification development for the collaborative-storage core of this
repository (the CRDT document engine: `Doc`, `AbstractCrdt`, `LiveObject`,
`LiveMap`, `LiveList`, `LiveRegister`).

The engine is embedded shallowly.  Following the arena strategy of the
design notes, the document owns all attached nodes in an id-indexed store
and parent/child links are stored as ids.  The fields a node can reach
through its `_doc` back-pointer (`addItem`, `deleteItem`, `getItem`,
`generateId`, `generateOpId`, i.e. the id index and the two clocks) form
the `Pool`; the remaining document state (undo/redo stacks, batch buffer,
broadcast callback, subscribers) lives in `Doc` and is reachable only from
`Doc`'s own methods, mirroring the source's access structure.  The injected
`broadcast` callback and the subscriber callbacks are modelled by event
logs: one entry per invocation round.
-/

set_option maxHeartbeats 1000000

/-- Node identities, strings of the shape `actor:clock`. -/
abbrev NodeId := String
abbrev Key := String
/-- Opaque JSON-serializable scalar payloads. -/
abbrev Scalar := String

/-! ### Association-list primitives

`Map` objects of the source are embedded as association lists in insertion
order: `set` replaces in place when the key is present (JS `Map.set`
keeps the original position) and appends otherwise. -/

def lookupKV {β : Type} (l : List (Key × β)) (k : Key) : Option β :=
  (l.find? (fun e => e.1 == k)).map (·.2)

def setKV {β : Type} (l : List (Key × β)) (k : Key) (v : β) : List (Key × β) :=
  if l.any (fun e => e.1 == k) then
    l.map (fun e => if e.1 == k then (k, v) else e)
  else
    l ++ [(k, v)]

def eraseKV {β : Type} (l : List (Key × β)) (k : Key) : List (Key × β) :=
  l.filter (fun e => !(e.1 == k))

def containsKV {β : Type} (l : List (Key × β)) (k : Key) : Bool :=
  l.any (fun e => e.1 == k)

theorem lookupKV_cons {β : Type} (e : Key × β) (es : List (Key × β)) (k : Key) :
    lookupKV (e :: es) k = if e.1 == k then some e.2 else lookupKV es k := by
  cases h : (e.1 == k) <;> simp [lookupKV, List.find?, h]

theorem lookupKV_map_replace_ne {β : Type} (l : List (Key × β)) (k k' : Key) (v : β)
    (h : k' ≠ k) :
    lookupKV (l.map (fun e => if e.1 == k then (k, v) else e)) k' = lookupKV l k' := by
  induction l with
  | nil => simp [lookupKV]
  | cons e es ih =>
    have h1 : (k == k') = false := beq_eq_false_iff_ne.mpr (Ne.symm h)
    cases he : (e.1 == k) with
    | true =>
      have h2 : (e.1 == k') = false := by rw [beq_iff_eq] at he; rw [he]; exact h1
      rw [List.map_cons, if_pos he, lookupKV_cons, lookupKV_cons, h1, h2]
      simpa using ih
    | false =>
      rw [List.map_cons, if_neg (by simp [he]), lookupKV_cons, lookupKV_cons]
      cases hek : (e.1 == k') with
      | true => simp
      | false => simpa using ih

theorem lookupKV_map_replace_self {β : Type} (l : List (Key × β)) (k : Key) (v : β)
    (h : l.any (fun e => e.1 == k) = true) :
    lookupKV (l.map (fun e => if e.1 == k then (k, v) else e)) k = some v := by
  induction l with
  | nil => simp at h
  | cons e es ih =>
    cases he : (e.1 == k) with
    | true => rw [List.map_cons, if_pos he, lookupKV_cons]; simp
    | false =>
      have h' : es.any (fun e => e.1 == k) = true := by
        simpa [List.any_cons, he] using h
      rw [List.map_cons, if_neg (by simp [he]), lookupKV_cons, he]
      · exact ih h'

theorem lookupKV_eq_none_of_not_contains {β : Type} (l : List (Key × β)) (k : Key)
    (h : l.any (fun e => e.1 == k) = false) : lookupKV l k = none := by
  induction l with
  | nil => simp [lookupKV]
  | cons e es ih =>
    simp only [List.any_cons, Bool.or_eq_false_iff] at h
    rw [lookupKV_cons, h.1]
    exact ih h.2

/-- Characterization of lookup after a JS `Map.set`. -/
theorem lookupKV_setKV {β : Type} (l : List (Key × β)) (k k' : Key) (v : β) :
    lookupKV (setKV l k v) k' = if k' = k then some v else lookupKV l k' := by
  by_cases hany : l.any (fun e => e.1 == k)
  · by_cases hk : k' = k
    · subst hk; simpa [setKV, hany] using lookupKV_map_replace_self l k' v hany
    · simpa [setKV, hany, hk] using lookupKV_map_replace_ne l k k' v hk
  · have hany' : l.any (fun e => e.1 == k) = false := by
      rw [Bool.not_eq_true] at hany; exact hany
    have hset : setKV l k v = l ++ [(k, v)] := by simp [setKV, hany']
    by_cases hk : k' = k
    · subst hk
      have hnone := lookupKV_eq_none_of_not_contains l k' hany'
      have hfind : l.find? (fun e => e.1 == k') = none := by
        simpa [lookupKV, Option.map_eq_none'] using hnone
      simp [hset, lookupKV, List.find?_append, hfind]
    · have h1 : (k == k') = false := beq_eq_false_iff_ne.mpr (Ne.symm hk)
      cases hfind : l.find? (fun e => e.1 == k') with
      | none => simp [hset, lookupKV, List.find?_append, hfind, h1, hk]
      | some e => simp [hset, lookupKV, List.find?_append, hfind, h1, hk]

/-- Characterization of lookup after a JS `Map.delete`. -/
theorem lookupKV_eraseKV {β : Type} (l : List (Key × β)) (k k' : Key) :
    lookupKV (eraseKV l k) k' = if k' = k then none else lookupKV l k' := by
  induction l with
  | nil => simp [lookupKV, eraseKV]
  | cons e es ih =>
    cases he : (e.1 == k) with
    | true =>
      have he' : e.1 = k := beq_iff_eq.mp he
      by_cases hk : k' = k
      · simpa [eraseKV, he, hk] using ih
      · have h2 : (e.1 == k') = false :=
          beq_eq_false_iff_ne.mpr (by rw [he']; exact Ne.symm hk)
        rw [eraseKV, List.filter_cons, he]
        rw [lookupKV_cons, h2]
        simpa [eraseKV, hk] using ih
    | false =>
      rw [eraseKV, List.filter_cons, he]
      simp only [Bool.not_false, if_pos]
      rw [lookupKV_cons, lookupKV_cons]
      cases hek : (e.1 == k') with
      | true =>
        have hk : ¬(k' = k) := by
          rw [beq_iff_eq] at hek
          rw [← hek]
          exact beq_eq_false_iff_ne.mp he
        simp [hk]
      | false => simpa [eraseKV] using ih

/-! ### Position algebra

Modelled from the spec: the dense-order positional key generator
(`position.ts`: `makePosition`, `compare`, `posCodes`) is not under
`src/`.  This implementation follows section 4.1: positions are strings
over an ordered alphabet, compared lexicographically with an implicit
"less than all" empty tail; `makePosition` is deterministic, returns a key
strictly between its bounds, and extends the key with an additional
character when the gap admits no single-character midpoint.  The alphabet
here is the digits `'1'..'9'` (code points 49..57) with `'0'` (48)
as the implicit floor and 58 as the implicit ceiling. -/

def posCodes (s : String) : List Nat := s.toList.map Char.toNat

def codesToPos (l : List Nat) : String := String.mk (l.map Char.ofNat)

def codeCompare : List Nat → List Nat → Int
  | [], [] => 0
  | [], _ :: _ => -1
  | _ :: _, [] => 1
  | a :: as, b :: bs => if a < b then -1 else if b < a then 1 else codeCompare as bs

/-- `compare(a, b)`: the sign of the lexicographic ordering of positions. -/
def posCompare (a b : String) : Int := codeCompare (posCodes a) (posCodes b)

def posAfterCodes : List Nat → List Nat
  | [] => [49]
  | h :: t => if h < 57 then [h + 1] else h :: posAfterCodes t

def posBeforeCodes : List Nat → List Nat
  | [] => []
  | h :: t => if 49 < h then [h - 1] else if h = 49 then [48, 57] else 48 :: posBeforeCodes t

def posBetweenCodes : List Nat → List Nat → List Nat
  | [], [] => [49]
  | [], a => posBeforeCodes a
  | b, [] => posAfterCodes b
  | bh :: bt, ah :: at' =>
    if bh = ah then bh :: posBetweenCodes bt at'
    else if bh + 1 < ah then [(bh + ah) / 2]
    else bh :: posAfterCodes bt

/-- `makePosition(before?, after?)` of the position algebra. -/
def makePosition (before after : Option String) : String :=
  match before, after with
  | none, none => codesToPos [49]
  | some b, none => codesToPos (posAfterCodes (posCodes b))
  | none, some a => codesToPos (posBeforeCodes (posCodes a))
  | some b, some a => codesToPos (posBetweenCodes (posCodes b) (posCodes a))

/-! ### Stable sort by position

`items.sort((itemA, itemB) => compare(itemA[1], itemB[1]))` — JS
`Array.prototype.sort` is stable, so the embedding is a stable insertion
sort processing elements in array order. -/

def posInsert (x : NodeId × Key) : List (NodeId × Key) → List (NodeId × Key)
  | [] => [x]
  | y :: ys => if posCompare x.2 y.2 < 0 then x :: y :: ys else y :: posInsert x ys

def sortByPos (l : List (NodeId × Key)) : List (NodeId × Key) :=
  l.foldl (fun acc x => posInsert x acc) []

theorem posInsert_perm (x : NodeId × Key) (l : List (NodeId × Key)) :
    (posInsert x l).Perm (x :: l) := by
  induction l with
  | nil => simp [posInsert]
  | cons y ys ih =>
    rw [posInsert]
    by_cases h : posCompare x.2 y.2 < 0
    · rw [if_pos h]
    · rw [if_neg h]
      exact ((ih.cons y).trans (List.Perm.swap x y ys))

theorem foldl_posInsert_perm (l acc : List (NodeId × Key)) :
    (l.foldl (fun a x => posInsert x a) acc).Perm (acc ++ l) := by
  induction l generalizing acc with
  | nil => simp
  | cons x xs ih =>
    rw [List.foldl_cons]
    refine (ih (posInsert x acc)).trans ?_
    have h1 : (posInsert x acc ++ xs).Perm ((x :: acc) ++ xs) :=
      (posInsert_perm x acc).append_right xs
    refine h1.trans ?_
    have hmid : (acc ++ x :: xs).Perm (x :: (acc ++ xs)) := List.perm_middle
    simpa using hmid.symm

theorem sortByPos_perm (l : List (NodeId × Key)) : (sortByPos l).Perm l := by
  simpa [sortByPos] using foldl_posInsert_perm l []

theorem mem_sortByPos {a : NodeId × Key} {l : List (NodeId × Key)} :
    a ∈ sortByPos l ↔ a ∈ l := (sortByPos_perm l).mem_iff

/-- `child(parentKey)` for a List node: the child stored under a given
position in the list's items array. -/
def childAtPos (items : List (NodeId × Key)) (k : Key) : Option NodeId :=
  (items.find? (fun e => e.2 == k)).map (·.1)

theorem childAtPos_eq_of_mem (items : List (NodeId × Key)) (c : NodeId) (k : Key)
    (hnd : (items.map Prod.snd).Nodup) (hm : (c, k) ∈ items) :
    childAtPos items k = some c := by
  induction items with
  | nil => simp at hm
  | cons e es ih =>
    rw [List.map_cons, List.nodup_cons] at hnd
    cases he : (e.2 == k) with
    | true =>
      have he' : e.2 = k := beq_iff_eq.mp he
      rcases List.mem_cons.mp hm with h | h
      · rw [← h] at he' ⊢
        simp [childAtPos, List.find?]
      · exact absurd (he' ▸ (List.mem_map.mpr ⟨(c, k), h, rfl⟩)) hnd.1
    | false =>
      rcases List.mem_cons.mp hm with h | h
      · rw [← h] at he; simp at he
      · have := ih hnd.2 h
        simpa [childAtPos, List.find?, he] using this

/-! ### Operations (wire format) and the node arena

The operation tagged union is modelled from the spec: `live.ts` is not
under `src/`; the fields follow the table of section 6.  `UpdateObject`
data values are `OVal` (scalar or node) rather than bare scalars because
the engine itself places previous child nodes into reverse `UpdateObject`
ops (`LiveObject._attachChild`, `LiveObject.update`), and
`LiveObject.#applyUpdate` stores `op.data[key]` unexamined. -/

/-- A value slot of a `LiveObject`'s map: an inline scalar or a child node
(held by id in the arena embedding). -/
inductive OVal where
  | scalar (s : Scalar)
  | nodeRef (id : NodeId)
deriving DecidableEq

inductive Op where
  | createObject (id : NodeId) (parentId : Option NodeId) (parentKey : Option Key)
      (data : List (Key × Scalar))
  | createMap (id : NodeId) (parentId : NodeId) (parentKey : Key)
  | createList (id : NodeId) (parentId : NodeId) (parentKey : Key)
  | createRegister (id : NodeId) (parentId : NodeId) (parentKey : Key) (data : Scalar)
  | updateObject (id : NodeId) (data : List (Key × OVal)) (opId : Option NodeId)
  | deleteObjectKey (id : NodeId) (key : Key)
  | deleteCrdt (id : NodeId)
  | setParentKey (id : NodeId) (parentKey : Key)
deriving DecidableEq

/-- Variant-specific state of a node: `LiveObject`'s map and
`propToLastUpdate` table, `LiveMap`'s entries, `LiveList`'s
(child, position) array in array order, `LiveRegister`'s datum. -/
inductive NodeData where
  | objD (map : List (Key × OVal)) (propToLastUpdate : List (Key × NodeId))
  | mapD (entries : List (Key × NodeId))
  | listD (items : List (NodeId × Key))
  | regD (data : Scalar)
deriving DecidableEq

/-- The `AbstractCrdt` fields `#parent` / `#parentKey` plus the variant
state.  A node present in the pool is attached (`#id`/`#doc` set). -/
structure NodeEntry where
  parent : Option NodeId
  parentKey : Option Key
  data : NodeData
deriving DecidableEq

/-- The document state reachable from a node through `this._doc`:
the id index `#items` and the `#actor` / `#clock` / `#opClock` counters
(`addItem`, `deleteItem`, `getItem`, `generateId`, `generateOpId`). -/
structure Pool where
  items : List (NodeId × NodeEntry)
  actor : Nat
  clock : Nat
  opClock : Nat
deriving DecidableEq

/-- Identity minting: `` `${actor}:${clock}` ``. -/
def mkIdent (actor clock : Nat) : String := toString actor ++ ":" ++ toString clock

/-- `generateId()`. -/
def Pool.generateId (p : Pool) : String × Pool :=
  (mkIdent p.actor p.clock, { p with clock := p.clock + 1 })

/-- `generateOpId()`. -/
def Pool.generateOpId (p : Pool) : String × Pool :=
  (mkIdent p.actor p.opClock, { p with opClock := p.opClock + 1 })

/-- `AbstractCrdt._detach` together with the recursive variant overrides:
unregister the node from the id index, then recursively detach its
children (`LiveObject._detach`, `LiveMap._detach`, `LiveList._detach`).
`fuel` bounds the recursion depth; the source recursion runs over the heap
tree, which is acyclic in every reachable state, and every caller passes
fuel larger than the pool size. -/
def detachRec : Nat → Pool → NodeId → Pool
  | 0, p, _ => p
  | fuel + 1, p, id =>
    match lookupKV p.items id with
    | none => { p with items := eraseKV p.items id }
    | some e =>
      let p1 : Pool := { p with items := eraseKV p.items id }
      match e.data with
      | .objD m _ =>
        m.foldl (fun acc kv => match kv.2 with
          | .nodeRef cid => detachRec fuel acc cid
          | .scalar _ => acc) p1
      | .mapD es => es.foldl (fun acc kv => detachRec fuel acc kv.2) p1
      | .listD its => its.foldl (fun acc it => detachRec fuel acc it.1) p1
      | .regD _ => p1

/-- `_serialize(parentId?, parentKey?)` of each variant: a creation op for
the node followed by the serialized subtree, children in container order.
Object data collects the scalar entries; Map/List/Register demand a parent
id and key.  `fuel` bounds the tree recursion as for `detachRec`. -/
def serializeNode : Nat → Pool → NodeId → Option NodeId → Option Key →
    Except String (List Op)
  | 0, _, _, _, _ => .error "Internal: serialization fuel exhausted"
  | fuel + 1, p, id, parentId, parentKey =>
    match lookupKV p.items id with
    | none => .error "Cannot serialize item is not attached"
    | some e =>
      match e.data with
      | .objD m _ => do
        let data := m.filterMap (fun kv => match kv.2 with
          | .scalar s => some (kv.1, s)
          | .nodeRef _ => none)
        let childOps ← m.foldlM (fun acc kv => match kv.2 with
          | .scalar _ => pure acc
          | .nodeRef cid => do
            let ops ← serializeNode fuel p cid (some id) (some kv.1)
            pure (acc ++ ops)) []
        pure (Op.createObject id parentId parentKey data :: childOps)
      | .mapD es =>
        match parentId, parentKey with
        | some pid, some pk => do
          let childOps ← es.foldlM (fun acc kv => do
            let ops ← serializeNode fuel p kv.2 (some id) (some kv.1)
            pure (acc ++ ops)) []
          pure (Op.createMap id pid pk :: childOps)
        | _, _ => .error "Cannot serialize map if parentId or parentKey is undefined"
      | .listD its =>
        match parentId, parentKey with
        | some pid, some pk => do
          let childOps ← its.foldlM (fun acc it => do
            let ops ← serializeNode fuel p it.1 (some id) (some it.2)
            pure (acc ++ ops)) []
          pure (Op.createList id pid pk :: childOps)
        | _, _ => .error "Cannot serialize list if parentId or parentKey is undefined"
      | .regD v =>
        match parentId, parentKey with
        | some pid, some pk => pure [Op.createRegister id pid pk v]
        | _, _ => .error "Cannot serialize register if parentId or parentKey is undefined"

/-! ### Node-level operation application -/

/-- Result of `_apply`: `{modified: node, reverse}` (the node named by its
id) or `{modified: false}`. -/
abbrev ApplyRes := Option (NodeId × List Op)

/-- `LiveList._attachChild`'s effect on the items array: if an existing
child already holds the incoming position, temporarily reposition it to
`makePosition(key, items[index+1]?.position)`; push the new child; re-sort.
The repositioning writes only the list's items array — not the displaced
child's own `#parentKey`. -/
def LiveList.attachChildItems (items : List (NodeId × Key)) (childId : NodeId)
    (key : Key) : List (NodeId × Key) :=
  let items1 :=
    match items.findIdx? (fun e => e.2 == key) with
    | some i =>
      match items.get? i with
      | some it =>
        items.set i (it.1, makePosition (some key) ((items.get? (i + 1)).map (·.2)))
      | none => items
    | none => items
  sortByPos (items1 ++ [(childId, key)])

/-- `LiveList._setChildKey`: temporarily reposition any existing child
holding the incoming key, then move the addressed child to that key and
re-sort.  Again only the items array is rewritten for the displaced
child. -/
def LiveList.setChildKeyItems (items : List (NodeId × Key)) (key : Key)
    (childId : NodeId) : List (NodeId × Key) :=
  let items1 : List (NodeId × Key) :=
    match items.findIdx? (fun e => e.2 == key) with
    | some i =>
      match items.get? i with
      | some it =>
        items.set i (it.1, makePosition (some key) ((items.get? (i + 1)).map (·.2)))
      | none => items
    | none => items
  let items2 : List (NodeId × Key) :=
    match items1.findIdx? (fun e => e.1 == childId) with
    | some j =>
      match items1.get? j with
      | some it => items1.set j (it.1, key)
      | none => items1
    | none => items1
  sortByPos items2

/-- `_attachChild(id, key, child)` dispatched on the parent's variant.
The child is freshly constructed from a creation op; its
`_setParentLink(this, key)` and `_attach(id, doc)` are the insertion of
its entry with the parent fields set.  `LiveRegister._attachChild`
throws. -/
def attachChild (fuel : Nat) (p : Pool) (selfId : NodeId) (childId : NodeId)
    (key : Key) (childData : NodeData) : Except String (Pool × ApplyRes) :=
  match lookupKV p.items selfId with
  | none => .error "Can't attach child if doc is not present"
  | some e =>
    match e.data with
    | .objD m ptlu => do
      let previousValue := lookupKV m key
      let (reverse, p) ← (match previousValue with
        | some (.nodeRef cid) => do
          let rev ← serializeNode fuel p cid (some selfId) (some key)
          pure (rev, detachRec fuel p cid)
        | some (.scalar s) =>
          pure ([Op.updateObject selfId [(key, OVal.scalar s)] none], p)
        | none => pure ([Op.deleteObjectKey selfId key], p) :
          Except String (List Op × Pool))
      let m := setKV m key (.nodeRef childId)
      let p := { p with items := setKV p.items selfId { e with data := .objD m ptlu } }
      let p := { p with items := setKV p.items childId ⟨some selfId, some key, childData⟩ }
      pure (p, some (selfId, reverse))
    | .mapD es => do
      let previousValue := lookupKV es key
      let (reverse, p) ← (match previousValue with
        | some cid => do
          let rev ← serializeNode fuel p cid (some selfId) (some key)
          pure (rev, detachRec fuel p cid)
        | none => pure ([Op.deleteCrdt childId], p) : Except String (List Op × Pool))
      let p := { p with items := setKV p.items childId ⟨some selfId, some key, childData⟩ }
      let es := setKV es key childId
      let p := { p with items := setKV p.items selfId { e with data := .mapD es } }
      pure (p, some (selfId, reverse))
    | .listD its =>
      let p1 := { p with items := setKV p.items childId ⟨some selfId, some key, childData⟩ }
      let its := LiveList.attachChildItems its childId key
      let p2 := { p1 with items := setKV p1.items selfId { e with data := .listD its } }
      pure (p2, some (selfId, [Op.deleteCrdt childId]))
    | .regD _ => .error "Method not implemented."

/-- `_detachChild(child)` dispatched on the parent's variant, followed by
the child's recursive `_detach`.  For a List, a missing child makes
`findIndex` return -1 and JS `splice(-1, 1)` removes the last element.
`LiveRegister._detachChild` throws.  A dangling parent entry cannot occur
in a reachable state; it is treated as the bare `child._detach()`. -/
def detachChildOf (fuel : Nat) (p : Pool) (parentId childId : NodeId) :
    Except String Pool :=
  match lookupKV p.items parentId with
  | none => pure (detachRec fuel p childId)
  | some pe =>
    match pe.data with
    | .objD m ptlu =>
      let m := m.filter (fun kv =>
        !(match kv.2 with | .nodeRef cid => cid == childId | .scalar _ => false))
      let p := { p with items := setKV p.items parentId { pe with data := .objD m ptlu } }
      pure (detachRec fuel p childId)
    | .mapD es =>
      let es := es.filter (fun kv => !(kv.2 == childId))
      let p := { p with items := setKV p.items parentId { pe with data := .mapD es } }
      pure (detachRec fuel p childId)
    | .listD its =>
      let its :=
        match its.findIdx? (fun it => it.1 == childId) with
        | some i => its.eraseIdx i
        | none => its.dropLast
      let p := { p with items := setKV p.items parentId { pe with data := .listD its } }
      pure (detachRec fuel p childId)
    | .regD _ => .error "Method not implemented."

/-- One iteration of `LiveObject.#applyUpdate`'s per-key loop, over the
state (pool, `#map`, `#propToLastUpdate`, `isModified`).  Local path:
record the `opId` and apply.  Remote path: apply when no pending local
update; on `propToLastUpdate[key] == op.opId` clear the entry and skip;
otherwise (conflicting pending local update) skip, keeping the entry. -/
def LiveObject.applyUpdateStep (fuel : Nat) (isLocal : Bool) (opId : NodeId)
    (st : Pool × List (Key × OVal) × List (Key × NodeId) × Bool)
    (kv : Key × OVal) : Pool × List (Key × OVal) × List (Key × NodeId) × Bool :=
  let p := st.1
  let m := st.2.1
  let ptlu := st.2.2.1
  let isModified := st.2.2.2
  if isLocal then
    let ptlu := setKV ptlu kv.1 opId
    let p := match lookupKV m kv.1 with
      | some (.nodeRef cid) => detachRec fuel p cid
      | _ => p
    (p, setKV m kv.1 kv.2, ptlu, true)
  else
    match lookupKV ptlu kv.1 with
    | none =>
      let p := match lookupKV m kv.1 with
        | some (.nodeRef cid) => detachRec fuel p cid
        | _ => p
      (p, setKV m kv.1 kv.2, ptlu, true)
    | some pending =>
      if pending == opId then (p, m, eraseKV ptlu kv.1, isModified)
      else (p, m, ptlu, isModified)

/-- `LiveObject.#applyUpdate`.  The object's own `#map` and
`#propToLastUpdate` are heap fields untouched by child detachment, so the
loop threads them locally and the entry is written back once. -/
def LiveObject.applyUpdate (fuel : Nat) (p : Pool) (selfId : NodeId)
    (data : List (Key × OVal)) (opId? : Option NodeId) : Pool × ApplyRes :=
  match lookupKV p.items selfId with
  | some e =>
    match e.data with
    | .objD m ptlu =>
      let revAcc := data.foldl (fun acc kv =>
        match lookupKV m kv.1 with
        | some oldValue => (setKV acc.1 kv.1 oldValue, acc.2)
        | none => (acc.1, acc.2 ++ [Op.deleteObjectKey selfId kv.1]))
        (([] : List (Key × OVal)), ([] : List Op))
      let reverse := Op.updateObject selfId revAcc.1 none :: revAcc.2
      let minted :=
        match opId? with
        | none => let (oid, p') := p.generateOpId; (true, oid, p')
        | some oid => (false, oid, p)
      let isLocal := minted.1
      let opId := minted.2.1
      let res := data.foldl (LiveObject.applyUpdateStep fuel isLocal opId)
        (minted.2.2, m, ptlu, false)
      let p1 := res.1
      let m1 := res.2.1
      let ptlu1 := res.2.2.1
      let isModified := res.2.2.2
      let p2 := { p1 with items := setKV p1.items selfId { e with data := .objD m1 ptlu1 } }
      if isModified then (p2, some (selfId, reverse)) else (p2, none)
    | _ => (p, none)
  | none => (p, none)

/-- `LiveObject.#applyDeleteObjectKey`: remove the key; the reverse
restores a scalar via `UpdateObject` or re-serializes a node child.  The
result is `modified: this` unconditionally. -/
def LiveObject.applyDeleteObjectKey (fuel : Nat) (p : Pool) (selfId : NodeId)
    (key : Key) : Except String (Pool × ApplyRes) :=
  match lookupKV p.items selfId with
  | some e =>
    match e.data with
    | .objD m ptlu => do
      let oldValue := lookupKV m key
      let (reverse, p) ← (match oldValue with
        | some (.nodeRef cid) => do
          let rev ← serializeNode fuel p cid (some selfId) (some key)
          pure (rev, detachRec fuel p cid)
        | some (.scalar s) =>
          pure ([Op.updateObject selfId [(key, OVal.scalar s)] none], p)
        | none => pure (([] : List Op), p) : Except String (List Op × Pool))
      let m := eraseKV m key
      let p := { p with items := setKV p.items selfId { e with data := .objD m ptlu } }
      pure (p, some (selfId, reverse))
    | _ => pure (p, none)
  | none => pure (p, none)

/-- `AbstractCrdt.#applySetParentKey`: no-op without a parent or when the
parent is not a List; otherwise `_setChildKey` on the parent with reverse
restoring the previous key.  `this._parentKey!` is a non-null assertion in
the source; a missing key degrades to the empty string. -/
def applySetParentKey (p : Pool) (selfId : NodeId) (newKey : Key) : Pool × ApplyRes :=
  match lookupKV p.items selfId with
  | none => (p, none)
  | some e =>
    match e.parent with
    | none => (p, none)
    | some parentId =>
      match lookupKV p.items parentId with
      | some pe =>
        match pe.data with
        | .listD its =>
          let previousKey := e.parentKey.getD ""
          let p1 := { p with items := setKV p.items selfId { e with parentKey := some newKey } }
          let its := LiveList.setChildKeyItems its newKey selfId
          let p2 := { p1 with items := setKV p1.items parentId { pe with data := .listD its } }
          (p2, some (selfId, [Op.setParentKey selfId previousKey]))
        | _ => (p, none)
      | none => (p, none)

/-- `AbstractCrdt.#applyCreateObject` / `#applyCreateMap` /
`#applyCreateList` / `#applyRegister`: no-op when the created id already
exists in the id index, else attach the freshly constructed child. -/
def applyCreate (fuel : Nat) (p : Pool) (selfId : NodeId) (opId : NodeId)
    (key : Key) (childData : NodeData) : Except String (Pool × ApplyRes) :=
  match lookupKV p.items opId with
  | some _ => pure (p, none)
  | none => attachChild fuel p selfId opId key childData

/-- `AbstractCrdt._apply`'s `DeleteCrdt` branch: when attached under a
parent, serialize the subtree as the reverse, then detach from the
parent. -/
def applyDeleteCrdt (fuel : Nat) (p : Pool) (selfId : NodeId) :
    Except String (Pool × ApplyRes) :=
  match lookupKV p.items selfId with
  | none => pure (p, none)
  | some e =>
    match e.parent, e.parentKey with
    | some parentId, some pk => do
      let reverse ← serializeNode fuel p selfId (some parentId) (some pk)
      let p ← detachChildOf fuel p parentId selfId
      pure (p, some (selfId, reverse))
    | _, _ => pure (p, none)

/-- `AbstractCrdt._apply` with the `LiveObject._apply` override
(`UpdateObject`, `DeleteObjectKey`); `LiveMap`, `LiveList` and
`LiveRegister` all delegate to the base implementation, which has no case
for the object-specific ops. -/
def nodeApply (fuel : Nat) (p : Pool) (selfId : NodeId) (op : Op) :
    Except String (Pool × ApplyRes) :=
  match op with
  | .updateObject _ data opId? =>
    match lookupKV p.items selfId with
    | some e =>
      match e.data with
      | .objD _ _ => pure (LiveObject.applyUpdate fuel p selfId data opId?)
      | _ => pure (p, none)
    | none => pure (p, none)
  | .deleteObjectKey _ key =>
    match lookupKV p.items selfId with
    | some e =>
      match e.data with
      | .objD _ _ => LiveObject.applyDeleteObjectKey fuel p selfId key
      | _ => pure (p, none)
    | none => pure (p, none)
  | .deleteCrdt _ => applyDeleteCrdt fuel p selfId
  | .setParentKey _ newKey => pure (applySetParentKey p selfId newKey)
  | .createObject cid _ pk data =>
    applyCreate fuel p selfId cid (pk.getD "")
      (.objD (data.map (fun kv => (kv.1, OVal.scalar kv.2))) [])
  | .createMap cid _ pk => applyCreate fuel p selfId cid pk (.mapD [])
  | .createList cid _ pk => applyCreate fuel p selfId cid pk (.listD [])
  | .createRegister cid _ pk v => applyCreate fuel p selfId cid pk (.regD v)

/-- `Doc.#applyOp`: route the op to its addressed node — by `op.id` for
node-directed ops, by `op.parentId` for creations; unknown targets are
no-ops. -/
def Doc.applyOp (p : Pool) (op : Op) : Except String (Pool × ApplyRes) :=
  let fuel := p.items.length + 1
  match op with
  | .updateObject id _ _ =>
    match lookupKV p.items id with
    | none => pure (p, none)
    | some _ => nodeApply fuel p id op
  | .deleteObjectKey id _ =>
    match lookupKV p.items id with
    | none => pure (p, none)
    | some _ => nodeApply fuel p id op
  | .deleteCrdt id =>
    match lookupKV p.items id with
    | none => pure (p, none)
    | some _ => nodeApply fuel p id op
  | .setParentKey id _ =>
    match lookupKV p.items id with
    | none => pure (p, none)
    | some _ => nodeApply fuel p id op
  | .createObject _ parentId _ _ =>
    match parentId with
    | none => pure (p, none)
    | some pid =>
      match lookupKV p.items pid with
      | none => pure (p, none)
      | some _ => nodeApply fuel p pid op
  | .createMap _ pid _ =>
    match lookupKV p.items pid with
    | none => pure (p, none)
    | some _ => nodeApply fuel p pid op
  | .createList _ pid _ =>
    match lookupKV p.items pid with
    | none => pure (p, none)
    | some _ => nodeApply fuel p pid op
  | .createRegister _ pid _ _ =>
    match lookupKV p.items pid with
    | none => pure (p, none)
    | some _ => nodeApply fuel p pid op

/-- `Doc.#apply`: apply ops in order, collecting the results.  A thrown
error aborts the loop but keeps the mutations of the preceding ops (the
source mutates in place). -/
def Doc.applyOps (p : Pool) : List Op → Pool × List ApplyRes × Option String
  | [] => (p, [], none)
  | op :: rest =>
    match Doc.applyOp p op with
    | .error msg => (p, [], some msg)
    | .ok pr =>
      let res := Doc.applyOps pr.1 rest
      (res.1, pr.2 :: res.2.1, res.2.2)

/-! ### Document level -/

/-- A call to the document's `dispatch` performed by the function inside a
batch; every mutator funnels its commit through `dispatch` (the mutators'
own pool writes happen before their dispatch call and are independent of
the batching flow). -/
structure BatchCall where
  ops : List Op
  reverse : List Op
  modified : List NodeId
deriving DecidableEq

/-- The document state outside the pool: `#root`, `#undoStack`,
`#redoStack`, `#isBatching`, the `#toBatch` buffer, plus event logs for
the injected `#broadcast` callback and for subscriber notification rounds
(`#notify` appends one entry per round, carrying `Array.from(modified)`,
and calls every subscriber with it). -/
structure Doc where
  pool : Pool
  rootId : Option NodeId
  undoStack : List (List Op)
  redoStack : List (List Op)
  isBatching : Bool
  toBatchOps : List Op
  toBatchReverseOps : List Op
  toBatchModified : List NodeId
  broadcasts : List (List Op)
  notifyLog : List (List NodeId)
deriving DecidableEq

/-- JS `Set.add`: insertion order, duplicates ignored. -/
def addUnique (l : List NodeId) (x : NodeId) : List NodeId :=
  if l.contains x then l else l ++ [x]

/-- `Doc.#notify`: returns immediately when the modified set is empty — no
subscriber is called; otherwise one notification round runs. -/
def Doc.notify (s : Doc) (modified : List NodeId) : Doc :=
  if modified.isEmpty then s
  else { s with notifyLog := s.notifyLog ++ [modified] }

/-- `Doc.#addToUndoStack`: shift out the oldest entry when the stack holds
`MAX_UNDO_STACK = 50` entries, then push. -/
def Doc.addToUndoStack (s : Doc) (ops : List Op) : Doc :=
  { s with undoStack :=
      (if 50 ≤ s.undoStack.length then s.undoStack.drop 1 else s.undoStack) ++ [ops] }

/-- `Doc.dispatch(ops, reverse, modified)`: accumulate into the batch
buffer while batching; otherwise undo-push the reverse, clear redo,
broadcast, and notify with `new Set(modified)`. -/
def Doc.dispatch (s : Doc) (ops reverse : List Op) (modified : List NodeId) : Doc :=
  if s.isBatching then
    { s with toBatchOps := s.toBatchOps ++ ops,
             toBatchModified := modified.foldl addUnique s.toBatchModified,
             toBatchReverseOps := s.toBatchReverseOps ++ reverse }
  else
    let s1 := Doc.addToUndoStack s reverse
    let s2 := { s1 with redoStack := [], broadcasts := s1.broadcasts ++ [ops] }
    Doc.notify s2 (modified.foldl addUnique [])

/-- `Doc.batch(fn)`: reentrance guard, then run `fn` — modelled by the
dispatch calls it performs; when `fn` throws, those calls are the prefix
that ran before the throw — and in the `finally` block emit the
consolidated dispatch and reset the batch buffer. -/
def Doc.batch (s : Doc) (calls : List BatchCall) : Doc × Option String :=
  if s.isBatching then (s, some "batch should not be called during a batch")
  else
    let s1 := { s with isBatching := true }
    let s2 := calls.foldl (fun st c => Doc.dispatch st c.ops c.reverse c.modified) s1
    let s3 := { s2 with isBatching := false }
    let s4 := Doc.addToUndoStack s3 s3.toBatchReverseOps
    let s5 := { s4 with redoStack := [], broadcasts := s4.broadcasts ++ [s4.toBatchOps] }
    let s6 := Doc.notify s5 s5.toBatchModified
    ({ s6 with toBatchOps := [], toBatchReverseOps := [], toBatchModified := [] }, none)

/-- The `reverse` accumulation of `undo` / `redo` over the apply results. -/
def collectReverse (rs : List ApplyRes) : List Op :=
  rs.foldl (fun acc r => match r with | some pr => acc ++ pr.2 | none => acc) []

/-- The modified-node set accumulated over apply results, in JS `Set`
insertion order. -/
def collectModified (rs : List ApplyRes) : List NodeId :=
  rs.foldl (fun acc r => match r with | some pr => addUnique acc pr.1 | none => acc) []

/-- `Doc.applyRemoteOperations(ops)`: route each op, then notify
subscribers with the union of modified nodes. -/
def Doc.applyRemoteOperations (s : Doc) (ops : List Op) : Doc × Option String :=
  let res := Doc.applyOps s.pool ops
  let s1 := { s with pool := res.1 }
  match res.2.2 with
  | some msg => (s1, some msg)
  | none => (Doc.notify s1 (collectModified res.2.1), none)

/-- `Doc.undo()`. -/
def Doc.undo (s : Doc) : Doc × Option String :=
  if s.isBatching then (s, some "undo is not allowed during a batch")
  else
    match s.undoStack.getLast? with
    | none => (s, none)
    | some ops =>
      let s1 := { s with undoStack := s.undoStack.dropLast }
      let res := Doc.applyOps s1.pool ops
      let s2 := { s1 with pool := res.1 }
      match res.2.2 with
      | some msg => (s2, some msg)
      | none =>
        let s3 := Doc.notify s2 (collectModified res.2.1)
        let s4 := { s3 with redoStack := s3.redoStack ++ [collectReverse res.2.1] }
        ({ s4 with broadcasts := s4.broadcasts ++ [ops] }, none)

/-- `Doc.redo()`.  Note the direct `this.#undoStack.push(reverse)`: the
`MAX_UNDO_STACK` eviction of `#addToUndoStack` is not applied here. -/
def Doc.redo (s : Doc) : Doc × Option String :=
  if s.isBatching then (s, some "redo is not allowed during a batch")
  else
    match s.redoStack.getLast? with
    | none => (s, none)
    | some ops =>
      let s1 := { s with redoStack := s.redoStack.dropLast }
      let res := Doc.applyOps s1.pool ops
      let s2 := { s1 with pool := res.1 }
      match res.2.2 with
      | some msg => (s2, some msg)
      | none =>
        let s3 := Doc.notify s2 (collectModified res.2.1)
        let s4 := { s3 with undoStack := s3.undoStack ++ [collectReverse res.2.1] }
        ({ s4 with broadcasts := s4.broadcasts ++ [ops] }, none)

/-- One top-level interaction with the document: a mutator commit (every
mutator funnels through `dispatch`), a batch, undo, redo, or a burst of
remote operations.  Failing calls keep the state they reached. -/
inductive DocAction where
  | dispatchA (ops reverse : List Op) (modified : List NodeId)
  | batchA (calls : List BatchCall)
  | undoA
  | redoA
  | remoteA (ops : List Op)

def Doc.runAction (s : Doc) : DocAction → Doc
  | .dispatchA ops reverse modified => Doc.dispatch s ops reverse modified
  | .batchA calls => (Doc.batch s calls).1
  | .undoA => (Doc.undo s).1
  | .redoA => (Doc.redo s).1
  | .remoteA ops => (Doc.applyRemoteOperations s ops).1

def Doc.runActions (s : Doc) (acts : List DocAction) : Doc :=
  acts.foldl Doc.runAction s

/-! ### Serialization records and `Doc.load` -/

/-- A serialized node record `{type, parentId?, parentKey?, data?}`; the
wire `type` tag is the constructor.  `data` is present only for Object and
Register. -/
inductive SerializedCrdt where
  | sObj (parentId : Option NodeId) (parentKey : Option Key) (data : List (Key × Scalar))
  | sMap (parentId : Option NodeId) (parentKey : Option Key)
  | sList (parentId : Option NodeId) (parentKey : Option Key)
  | sReg (parentId : Option NodeId) (parentKey : Option Key) (data : Scalar)
deriving DecidableEq

def SerializedCrdt.parentId : SerializedCrdt → Option NodeId
  | .sObj pid _ _ => pid
  | .sMap pid _ => pid
  | .sList pid _ => pid
  | .sReg pid _ _ => pid

def SerializedCrdt.parentKey : SerializedCrdt → Option Key
  | .sObj _ pk _ => pk
  | .sMap _ pk => pk
  | .sList _ pk => pk
  | .sReg _ pk _ => pk

abbrev SerializedCrdtWithId := NodeId × SerializedCrdt

/-- Insert or replace one entry of the id index. -/
def setEntry (p : Pool) (id : NodeId) (e : NodeEntry) : Pool :=
  { p with items := setKV p.items id e }

/-- `deserialize` together with the variants' `_deserialize` methods:
reconstruct a node and its subtree into the pool from the parent→children
index, returning the node's id.  Each node `_attach`es itself first (with
no parent link — the caller sets `child._setParentLink` afterwards), then
deserializes its children in index order.  Object and Map check each
child's `parentKey` for null; `LiveList._deserialize` non-null asserts it
(a missing key degrades to the empty string) and re-sorts after every
push.  `fuel` bounds the tree recursion. -/
def deserialize : Nat → SerializedCrdtWithId →
    List (Key × List SerializedCrdtWithId) → Pool → Except String (Pool × NodeId)
  | 0, _, _, _ => .error "Internal: deserialization fuel exhausted"
  | fuel + 1, entry, parentToChildren, p =>
    let id := entry.1
    match entry.2 with
    | .sObj _ _ data =>
      let m0 : List (Key × OVal) := data.map (fun kv => (kv.1, OVal.scalar kv.2))
      let p0 := setEntry p id ⟨none, none, .objD m0 []⟩
      let children := (lookupKV parentToChildren id).getD []
      do
        let pFinal ← children.foldlM (fun pAcc child => do
          match child.2.parentKey with
          | none =>
            .error "Tried to deserialize a crdt but it does not have a parentKey and is not the root"
          | some pk => do
            let res ← deserialize fuel child parentToChildren pAcc
            let p1 := res.1
            let p2 : Pool :=
              match lookupKV p1.items res.2 with
              | some ce => setEntry p1 res.2 ⟨some id, some pk, ce.data⟩
              | none => p1
            let p3 : Pool :=
              match lookupKV p2.items id with
              | some oe =>
                match oe.data with
                | .objD m ptlu =>
                  setEntry p2 id ⟨oe.parent, oe.parentKey, .objD (setKV m pk (OVal.nodeRef res.2)) ptlu⟩
                | _ => p2
              | none => p2
            pure p3) p0
        pure (pFinal, id)
    | .sMap _ _ =>
      let p0 := setEntry p id ⟨none, none, .mapD []⟩
      let children := (lookupKV parentToChildren id).getD []
      do
        let pFinal ← children.foldlM (fun pAcc child => do
          match child.2.parentKey with
          | none =>
            .error "Tried to deserialize a crdt but it does not have a parentKey and is not the root"
          | some pk => do
            let res ← deserialize fuel child parentToChildren pAcc
            let p1 := res.1
            let p2 : Pool :=
              match lookupKV p1.items res.2 with
              | some ce => setEntry p1 res.2 ⟨some id, some pk, ce.data⟩
              | none => p1
            let p3 : Pool :=
              match lookupKV p2.items id with
              | some oe =>
                match oe.data with
                | .mapD es => setEntry p2 id ⟨oe.parent, oe.parentKey, .mapD (setKV es pk res.2)⟩
                | _ => p2
              | none => p2
            pure p3) p0
        pure (pFinal, id)
    | .sList _ _ =>
      let p0 := setEntry p id ⟨none, none, .listD []⟩
      let children := (lookupKV parentToChildren id).getD []
      do
        let pFinal ← children.foldlM (fun pAcc child => do
          let pk := child.2.parentKey.getD ""
          let res ← deserialize fuel child parentToChildren pAcc
          let p1 := res.1
          let p2 : Pool :=
            match lookupKV p1.items res.2 with
            | some ce => setEntry p1 res.2 ⟨some id, some pk, ce.data⟩
            | none => p1
          let p3 : Pool :=
            match lookupKV p2.items id with
            | some oe =>
              match oe.data with
              | .listD its =>
                setEntry p2 id ⟨oe.parent, oe.parentKey, .listD (sortByPos (its ++ [(res.2, pk)]))⟩
              | _ => p2
            | none => p2
          pure p3) p0
        pure (pFinal, id)
    | .sReg _ _ v =>
      pure (setEntry p id ⟨none, none, .regD v⟩, id)

def emptyPool (actor : Nat) : Pool := ⟨[], actor, 0, 0⟩

/-- One iteration of `Doc.load`'s index-building loop: a parentless tuple
becomes the root candidate (a later one overwrites an earlier one); any
other tuple is appended to its parent's bucket. -/
def loadScanStep
    (acc : List (Key × List SerializedCrdtWithId) × Option SerializedCrdtWithId)
    (tuple : SerializedCrdtWithId) :
    List (Key × List SerializedCrdtWithId) × Option SerializedCrdtWithId :=
  match tuple.2.parentId with
  | none => (acc.1, some tuple)
  | some pid =>
    match lookupKV acc.1 pid with
    | some children => (setKV acc.1 pid (children ++ [tuple]), acc.2)
    | none => (acc.1 ++ [(pid, [tuple])], acc.2)

/-- `Doc.load(items, actor, dispatch)`: fail on an empty list; build the
parent→children index in one pass, remembering the parentless entry
(`root = tuple` — a later parentless tuple overwrites an earlier one);
fail if none was seen; deserialize the root record as a `LiveObject`
(failing when its type tag is not Object). -/
def Doc.load (items : List SerializedCrdtWithId) (actor : Nat) : Except String Doc :=
  if items.length = 0 then
    .error "Internal error: cannot load storage without items"
  else
    let scan := items.foldl loadScanStep ([], none)
    match scan.2 with
    | none => .error "Root can't be null"
    | some root =>
      match root.2 with
      | .sObj _ _ _ => do
        let res ← deserialize (items.length + 1) root scan.1 (emptyPool actor)
        pure { pool := res.1, rootId := some res.2, undoStack := [], redoStack := [],
               isBatching := false, toBatchOps := [], toBatchReverseOps := [],
               toBatchModified := [], broadcasts := [], notifyLog := [] }
      | _ => .error "Tried to deserialize a record but item type is not Object"

/-! ### `LiveObject.update` (the local mutator path) -/

mutual
/-- A freshly constructed, not yet attached `Live*` node passed into a
mutator.  The `LiveList` constructor does not set its children's parent
link (only `insert` does); `LiveMap` and `LiveObject` constructors do.
Children sit in dedicated list inductives so that the attach recursion is
structural (hence kernel-computable). -/
inductive NewTree where
  | nObj (entries : NewEntryList)
  | nMap (kids : NewEntryList)
  | nList (kids : NewValList)
  | nReg (v : Scalar)

/-- A value handed to a container constructor or to `update`: a plain
scalar or a node. -/
inductive NewVal where
  | nScalar (s : Scalar)
  | nNode (t : NewTree)

inductive NewEntryList where
  | nilE
  | consE (k : Key) (v : NewVal) (rest : NewEntryList)

inductive NewValList where
  | nilV
  | consV (v : NewVal) (rest : NewValList)
end

mutual
/-- `_attach(id, doc)` of a freshly constructed node: mint an id
(`doc.generateId()`), register the node, recursively attach its children
in container order (the source registers the parent before its children;
only the relative order of entries in the id index differs here, not its
contents).  Scalars under Map/List were wrapped into `LiveRegister`s by
`selfOrRegister` at construction; the `LiveList` constructor chains
positions with `makePosition(prev)` and leaves its children without a
parent link. -/
def attachTree (p : Pool) (plink : Option (NodeId × Key)) (t : NewTree) :
    Pool × NodeId :=
  let gen := p.generateId
  let id := gen.1
  let parent := plink.map (·.1)
  let parentKey := plink.map (·.2)
  match t with
  | .nReg v => (setEntry gen.2 id ⟨parent, parentKey, .regD v⟩, id)
  | .nObj entries =>
    let res := attachObjEntries gen.2 id entries
    (setEntry res.1 id ⟨parent, parentKey, .objD res.2 []⟩, id)
  | .nMap kids =>
    let res := attachMapKids gen.2 id kids
    (setEntry res.1 id ⟨parent, parentKey, .mapD res.2⟩, id)
  | .nList kids =>
    let res := attachListKids gen.2 kids none
    (setEntry res.1 id ⟨parent, parentKey, .listD res.2⟩, id)

def attachObjEntries (p : Pool) (id : NodeId) :
    NewEntryList → Pool × List (Key × OVal)
  | .nilE => (p, [])
  | .consE k (.nScalar s) rest =>
    let res := attachObjEntries p id rest
    (res.1, (k, OVal.scalar s) :: res.2)
  | .consE k (.nNode t') rest =>
    let r := attachTree p (some (id, k)) t'
    let res := attachObjEntries r.1 id rest
    (res.1, (k, OVal.nodeRef r.2) :: res.2)

def attachMapKids (p : Pool) (id : NodeId) :
    NewEntryList → Pool × List (Key × NodeId)
  | .nilE => (p, [])
  | .consE k (.nScalar s) rest =>
    let gen := p.generateId
    let p1 := setEntry gen.2 gen.1 ⟨some id, some k, .regD s⟩
    let res := attachMapKids p1 id rest
    (res.1, (k, gen.1) :: res.2)
  | .consE k (.nNode t') rest =>
    let r := attachTree p (some (id, k)) t'
    let res := attachMapKids r.1 id rest
    (res.1, (k, r.2) :: res.2)

def attachListKids (p : Pool) :
    NewValList → Option String → Pool × List (NodeId × Key)
  | .nilV, _ => (p, [])
  | .consV (.nScalar s) rest, prev =>
    let pos := makePosition prev none
    let gen := p.generateId
    let p1 := setEntry gen.2 gen.1 ⟨none, none, .regD s⟩
    let res := attachListKids p1 rest (some pos)
    (res.1, (gen.1, pos) :: res.2)
  | .consV (.nNode t') rest, prev =>
    let pos := makePosition prev none
    let r := attachTree p none t'
    let res := attachListKids r.1 rest (some pos)
    (res.1, (r.2, pos) :: res.2)
end

/-- The state threaded through `LiveObject.update`'s key loop. -/
structure UpdateLoopState where
  pool : Pool
  m : List (Key × OVal)
  ptlu : List (Key × NodeId)
  ops : List Op
  reverseTail : List Op
  reverseData : List (Key × OVal)
  updatedProps : List (Key × Scalar)

/-- One iteration of `LiveObject.update`'s key loop: write
`propToLastUpdate[key] := opId` first — for every key, scalar and node
values alike — then build the reverse for the key, attach and serialize a
node value or collect a scalar into `updatedProps`, and store the new
value. -/
def LiveObject.updateStep (selfId : NodeId) (opId : NodeId)
    (st : UpdateLoopState) (kv : Key × NewVal) : Except String UpdateLoopState := do
  let ptlu := setKV st.ptlu kv.1 opId
  let oldValue := lookupKV st.m kv.1
  let rEtc ← (match oldValue with
    | some (.nodeRef cid) => do
      let rev ← serializeNode (st.pool.items.length + 1) st.pool cid
        (some selfId) (some kv.1)
      pure (st.reverseTail ++ rev, st.reverseData,
        detachRec (st.pool.items.length + 1) st.pool cid)
    | some (.scalar sv) =>
      pure (st.reverseTail, setKV st.reverseData kv.1 (OVal.scalar sv), st.pool)
    | none =>
      pure (st.reverseTail ++ [Op.deleteObjectKey selfId kv.1], st.reverseData,
        st.pool) :
    Except String (List Op × List (Key × OVal) × Pool))
  let nEtc ← (match kv.2 with
    | .nNode t => do
      let r := attachTree rEtc.2.2 (some (selfId, kv.1)) t
      let childOps ← serializeNode (r.1.items.length + 1) r.1 r.2
        (some selfId) (some kv.1)
      pure (OVal.nodeRef r.2, st.ops ++ childOps, r.1)
    | .nScalar sv => pure (OVal.scalar sv, st.ops, rEtc.2.2) :
    Except String (OVal × List Op × Pool))
  let updatedProps := match kv.2 with
    | .nScalar sv => setKV st.updatedProps kv.1 sv
    | .nNode _ => st.updatedProps
  pure { pool := nEtc.2.2, m := setKV st.m kv.1 nEtc.1, ptlu := ptlu,
         ops := nEtc.2.1, reverseTail := rEtc.1, reverseData := rEtc.2.1,
         updatedProps := updatedProps }

/-- `LiveObject.update(overrides)` on an attached object (the unattached
branch of the source mutates only the detached heap object, which lives
outside the arena).  Mints one `opId`; for every key of `overrides` —
scalar or node alike — writes `propToLastUpdate[key] := opId`, builds the
reverse, attaches and serializes node values, collects scalar values into
`updatedProps`; finally unshifts the consolidated `UpdateObject` op (with
the `opId`) when any scalar key was set, and dispatches.  A throw aborts
the mutator before its dispatch (unreachable for well-formed pools). -/
def LiveObject.update (s : Doc) (selfId : NodeId)
    (overrides : List (Key × NewVal)) : Doc × Option String :=
  match lookupKV s.pool.items selfId with
  | none => (s, some "update: object not in pool (unattached objects live outside the arena)")
  | some e =>
    match e.data with
    | .objD m ptlu =>
      let gen := s.pool.generateOpId
      let opId := gen.1
      let loop : Except String UpdateLoopState := overrides.foldlM
        (LiveObject.updateStep selfId opId)
        { pool := gen.2, m := m, ptlu := ptlu, ops := [], reverseTail := [],
          reverseData := [], updatedProps := [] }
      match loop with
      | .error msg => (s, some msg)
      | .ok st =>
        let ops :=
          if st.updatedProps.length ≠ 0 then
            Op.updateObject selfId
              (st.updatedProps.map (fun kv => (kv.1, OVal.scalar kv.2)))
              (some opId) :: st.ops
          else st.ops
        let reverse := Op.updateObject selfId st.reverseData none :: st.reverseTail
        let pool := setEntry st.pool selfId ⟨e.parent, e.parentKey, .objD st.m st.ptlu⟩
        (Doc.dispatch { s with pool := pool } ops reverse [selfId], none)
    | _ => (s, some "update: target is not a LiveObject")

/-! ### Observables and concrete fixtures -/

/-- A document around an empty pool (stacks empty, not batching). -/
def emptyDoc : Doc :=
  { pool := emptyPool 0, rootId := none, undoStack := [], redoStack := [],
    isBatching := false, toBatchOps := [], toBatchReverseOps := [],
    toBatchModified := [], broadcasts := [], notifyLog := [] }

/-- The `#propToLastUpdate` table of an object node, when present. -/
def objPtlu (p : Pool) (id : NodeId) : Option (List (Key × NodeId)) :=
  match lookupKV p.items id with
  | some e => match e.data with | .objD _ ptlu => some ptlu | _ => none
  | none => none

/-- The `#map` of an object node, when present. -/
def objMap (p : Pool) (id : NodeId) : Option (List (Key × OVal)) :=
  match lookupKV p.items id with
  | some e => match e.data with | .objD m _ => some m | _ => none
  | none => none

/-- The items array of a List node, when present. -/
def listItemsOf (p : Pool) (id : NodeId) : List (NodeId × Key) :=
  match lookupKV p.items id with
  | some e => match e.data with | .listD its => its | _ => []
  | none => []

/-- A node's stored `#parentKey`. -/
def parentKeyOf (p : Pool) (id : NodeId) : Option Key :=
  match lookupKV p.items id with
  | some e => e.parentKey
  | none => none

/-! ### Claim C9 -/

/-- Claim C9: on a document that is not mid-batch, `undo()` with an empty
undo stack returns normally — no throw, no broadcast, no subscriber
notification, no state change at all — and `redo()` behaves the same with
an empty redo stack. -/
theorem c9_undo_redo_empty_noop (s : Doc) (hb : s.isBatching = false) :
    (s.undoStack = [] → Doc.undo s = (s, none)) ∧
    (s.redoStack = [] → Doc.redo s = (s, none)) := by
  constructor
  · intro hu
    simp [Doc.undo, hb, hu]
  · intro hr
    simp [Doc.redo, hb, hr]

theorem c9_witness :
    Doc.undo emptyDoc = (emptyDoc, none) ∧ Doc.redo emptyDoc = (emptyDoc, none) :=
  ⟨(c9_undo_redo_empty_noop emptyDoc rfl).1 rfl,
   (c9_undo_redo_empty_noop emptyDoc rfl).2 rfl⟩

/-! ### Claim C7 -/

/-- Claim C7: `applyRemoteOperations` leaves the undo stack, the redo
stack and the batch buffer unchanged and never invokes the broadcast
callback; its document-level effects are routing the ops through
`Doc.#apply` into the pool and notifying subscribers once with the union
of modified nodes (no notification when the union is empty or a routed op
threw). -/
theorem c7_applyRemoteOperations_frame (s : Doc) (ops : List Op) :
    (Doc.applyRemoteOperations s ops).1.undoStack = s.undoStack ∧
    (Doc.applyRemoteOperations s ops).1.redoStack = s.redoStack ∧
    (Doc.applyRemoteOperations s ops).1.isBatching = s.isBatching ∧
    (Doc.applyRemoteOperations s ops).1.toBatchOps = s.toBatchOps ∧
    (Doc.applyRemoteOperations s ops).1.toBatchReverseOps = s.toBatchReverseOps ∧
    (Doc.applyRemoteOperations s ops).1.toBatchModified = s.toBatchModified ∧
    (Doc.applyRemoteOperations s ops).1.broadcasts = s.broadcasts ∧
    (Doc.applyRemoteOperations s ops).1.rootId = s.rootId ∧
    (Doc.applyRemoteOperations s ops).1.pool = (Doc.applyOps s.pool ops).1 ∧
    (Doc.applyRemoteOperations s ops).1.notifyLog = s.notifyLog ++
      (if (Doc.applyOps s.pool ops).2.2 = none ∧
          collectModified (Doc.applyOps s.pool ops).2.1 ≠ []
       then [collectModified (Doc.applyOps s.pool ops).2.1] else []) := by
  unfold Doc.applyRemoteOperations
  cases herr : (Doc.applyOps s.pool ops).2.2 with
  | some msg => simp [herr]
  | none =>
    cases hm : collectModified (Doc.applyOps s.pool ops).2.1 with
    | nil => simp [herr, hm, Doc.notify]
    | cons a as => simp [herr, hm, Doc.notify]

/-! ### Claim C8 -/

/-- Claim C8: a remote operation whose target cannot be resolved is
silently ignored — no state change, no error.  `UpdateObject`,
`DeleteObjectKey`, `DeleteCrdt` and `SetParentKey` ops whose `id` is not
in the id index are no-ops; `Create*` ops whose `parentId` is missing (or
absent from the index), or whose `id` already exists, are no-ops; a
`SetParentKey` op on a node without a parent or whose parent is not a
List is a no-op. -/
theorem c8_unresolvable_remote_ops_noop :
    (∀ (p : Pool) (id : NodeId) data opId, lookupKV p.items id = none →
      Doc.applyOp p (Op.updateObject id data opId) = .ok (p, none)) ∧
    (∀ (p : Pool) (id : NodeId) key, lookupKV p.items id = none →
      Doc.applyOp p (Op.deleteObjectKey id key) = .ok (p, none)) ∧
    (∀ (p : Pool) (id : NodeId), lookupKV p.items id = none →
      Doc.applyOp p (Op.deleteCrdt id) = .ok (p, none)) ∧
    (∀ (p : Pool) (id : NodeId) pk, lookupKV p.items id = none →
      Doc.applyOp p (Op.setParentKey id pk) = .ok (p, none)) ∧
    (∀ (p : Pool) (id : NodeId) pk data,
      Doc.applyOp p (Op.createObject id none pk data) = .ok (p, none)) ∧
    (∀ (p : Pool) (id pid : NodeId) pk data, lookupKV p.items pid = none →
      Doc.applyOp p (Op.createObject id (some pid) pk data) = .ok (p, none)) ∧
    (∀ (p : Pool) (id pid : NodeId) pk, lookupKV p.items pid = none →
      Doc.applyOp p (Op.createMap id pid pk) = .ok (p, none)) ∧
    (∀ (p : Pool) (id pid : NodeId) pk, lookupKV p.items pid = none →
      Doc.applyOp p (Op.createList id pid pk) = .ok (p, none)) ∧
    (∀ (p : Pool) (id pid : NodeId) pk v, lookupKV p.items pid = none →
      Doc.applyOp p (Op.createRegister id pid pk v) = .ok (p, none)) ∧
    (∀ (p : Pool) (id pid : NodeId) pk data pe, lookupKV p.items pid = some pe →
      lookupKV p.items id ≠ none →
      Doc.applyOp p (Op.createObject id (some pid) pk data) = .ok (p, none)) ∧
    (∀ (p : Pool) (id pid : NodeId) pk pe, lookupKV p.items pid = some pe →
      lookupKV p.items id ≠ none →
      Doc.applyOp p (Op.createMap id pid pk) = .ok (p, none)) ∧
    (∀ (p : Pool) (id pid : NodeId) pk pe, lookupKV p.items pid = some pe →
      lookupKV p.items id ≠ none →
      Doc.applyOp p (Op.createList id pid pk) = .ok (p, none)) ∧
    (∀ (p : Pool) (id pid : NodeId) pk v pe, lookupKV p.items pid = some pe →
      lookupKV p.items id ≠ none →
      Doc.applyOp p (Op.createRegister id pid pk v) = .ok (p, none)) ∧
    (∀ (p : Pool) (id : NodeId) pk e, lookupKV p.items id = some e → e.parent = none →
      Doc.applyOp p (Op.setParentKey id pk) = .ok (p, none)) ∧
    (∀ (p : Pool) (id : NodeId) pk e pid pe, lookupKV p.items id = some e →
      e.parent = some pid → lookupKV p.items pid = some pe →
      (∀ its, pe.data ≠ NodeData.listD its) →
      Doc.applyOp p (Op.setParentKey id pk) = .ok (p, none)) := by
  refine ⟨?_, ?_, ?_, ?_, ?_, ?_, ?_, ?_, ?_, ?_, ?_, ?_, ?_, ?_, ?_⟩
  · intro p id data opId h; simp [Doc.applyOp, h, pure, Except.pure]
  · intro p id key h; simp [Doc.applyOp, h, pure, Except.pure]
  · intro p id h; simp [Doc.applyOp, h, pure, Except.pure]
  · intro p id pk h; simp [Doc.applyOp, h, pure, Except.pure]
  · intro p id pk data; simp [Doc.applyOp, pure, Except.pure]
  · intro p id pid pk data h; simp [Doc.applyOp, h, pure, Except.pure]
  · intro p id pid pk h; simp [Doc.applyOp, h, pure, Except.pure]
  · intro p id pid pk h; simp [Doc.applyOp, h, pure, Except.pure]
  · intro p id pid pk v h; simp [Doc.applyOp, h, pure, Except.pure]
  · intro p id pid pk data pe hp hid
    cases hid' : lookupKV p.items id with
    | none => exact absurd hid' hid
    | some e => simp [Doc.applyOp, nodeApply, applyCreate, hp, hid', pure, Except.pure]
  · intro p id pid pk pe hp hid
    cases hid' : lookupKV p.items id with
    | none => exact absurd hid' hid
    | some e => simp [Doc.applyOp, nodeApply, applyCreate, hp, hid', pure, Except.pure]
  · intro p id pid pk pe hp hid
    cases hid' : lookupKV p.items id with
    | none => exact absurd hid' hid
    | some e => simp [Doc.applyOp, nodeApply, applyCreate, hp, hid', pure, Except.pure]
  · intro p id pid pk v pe hp hid
    cases hid' : lookupKV p.items id with
    | none => exact absurd hid' hid
    | some e => simp [Doc.applyOp, nodeApply, applyCreate, hp, hid', pure, Except.pure]
  · intro p id pk e hid hpar
    simp [Doc.applyOp, nodeApply, applySetParentKey, hid, hpar, pure, Except.pure]
  · intro p id pk e pid pe hid hpar hpid hnl
    cases hd : pe.data with
    | listD its => exact absurd hd (hnl its)
    | objD m ptlu => simp [Doc.applyOp, nodeApply, applySetParentKey, hid, hpar, hpid, hd, pure, Except.pure]
    | mapD es => simp [Doc.applyOp, nodeApply, applySetParentKey, hid, hpar, hpid, hd, pure, Except.pure]
    | regD v => simp [Doc.applyOp, nodeApply, applySetParentKey, hid, hpar, hpid, hd, pure, Except.pure]

/-- A two-node pool: an object `par` with a register child `ch`. -/
def c8pool : Pool :=
  { items := [("par", ⟨none, none, .objD [("k", OVal.nodeRef "ch")] []⟩),
              ("ch", ⟨some "par", some "k", .regD "v"⟩)],
    actor := 0, clock := 2, opClock := 0 }

theorem c8_witness :
    Doc.applyOp (emptyPool 0) (Op.updateObject "x" [] none) = .ok (emptyPool 0, none) ∧
    Doc.applyOp (emptyPool 0) (Op.deleteCrdt "x") = .ok (emptyPool 0, none) ∧
    Doc.applyOp (emptyPool 0) (Op.createObject "a" (some "miss") none []) =
      .ok (emptyPool 0, none) ∧
    Doc.applyOp c8pool (Op.createMap "ch" "par" "k2") = .ok (c8pool, none) ∧
    Doc.applyOp c8pool (Op.setParentKey "ch" "z") = .ok (c8pool, none) ∧
    Doc.applyOp c8pool (Op.setParentKey "par" "z") = .ok (c8pool, none) := by
  obtain ⟨h1, h2, h3, h4, h5, h6, h7, h8, h9, h10, h11, h12, h13, h14, h15⟩ :=
    c8_unresolvable_remote_ops_noop
  refine ⟨h1 (emptyPool 0) "x" [] none (by decide),
          h3 (emptyPool 0) "x" (by decide),
          h6 (emptyPool 0) "a" "miss" none [] (by decide),
          h11 c8pool "ch" "par" "k2" ⟨none, none, .objD [("k", OVal.nodeRef "ch")] []⟩
            (by decide) (by decide),
          h15 c8pool "ch" "z" ⟨some "par", some "k", .regD "v"⟩ "par"
            ⟨none, none, .objD [("k", OVal.nodeRef "ch")] []⟩
            (by decide) (by decide) (by decide) (fun its => by simp),
          h14 c8pool "par" "z" ⟨none, none, .objD [("k", OVal.nodeRef "ch")] []⟩
            (by decide) (by decide)⟩

/-! ### Batch fold helper -/

/-- While `#isBatching` is set, every `dispatch` lands in the `#toBatch`
buffer: the fold over the calls of a batch only extends the buffer, in
call order. -/
theorem batchFold_spec (calls : List BatchCall) (s : Doc) (h : s.isBatching = true) :
    (calls.foldl (fun st c => Doc.dispatch st c.ops c.reverse c.modified) s) =
    { s with toBatchOps := s.toBatchOps ++ (calls.map (·.ops)).flatten,
             toBatchReverseOps := s.toBatchReverseOps ++ (calls.map (·.reverse)).flatten,
             toBatchModified :=
               calls.foldl (fun acc c => c.modified.foldl addUnique acc)
                 s.toBatchModified } := by
  induction calls generalizing s with
  | nil => simp
  | cons c cs ih =>
    rw [List.foldl_cons]
    have hd : Doc.dispatch s c.ops c.reverse c.modified =
        { s with toBatchOps := s.toBatchOps ++ c.ops,
                 toBatchModified := c.modified.foldl addUnique s.toBatchModified,
                 toBatchReverseOps := s.toBatchReverseOps ++ c.reverse } := by
      simp [Doc.dispatch, h]
    rw [hd, ih _ (by simp [h])]
    simp [List.append_assoc]

/-! ### Claim C10 -/

/-- The notification log after a `#notify`. -/
theorem notify_notifyLog (s : Doc) (m : List NodeId) :
    (Doc.notify s m).notifyLog =
      s.notifyLog ++ (if m.isEmpty then [] else [m]) := by
  cases m <;> simp [Doc.notify]

/-- Every commit path extends the notification log by at most one round,
and only by a nonempty one. -/
theorem runAction_notifyLog_shape (s : Doc) (a : DocAction) :
    ∃ M : List NodeId, (Doc.runAction s a).notifyLog =
      s.notifyLog ++ (if M.isEmpty then [] else [M]) := by
  cases a with
  | dispatchA ops reverse modified =>
    show ∃ M, (Doc.dispatch s ops reverse modified).notifyLog = _
    unfold Doc.dispatch
    cases hb : s.isBatching with
    | true => exact ⟨[], by simp⟩
    | false =>
      refine ⟨modified.foldl addUnique [], ?_⟩
      simp only [Bool.false_eq_true, if_neg, not_false_iff]
      by_cases hE : (modified.foldl addUnique []).isEmpty <;>
        simp [Doc.notify, hE, Doc.addToUndoStack]
  | batchA calls =>
    show ∃ M, ((Doc.batch s calls).1).notifyLog = _
    unfold Doc.batch
    cases hb : s.isBatching with
    | true => exact ⟨[], by simp⟩
    | false =>
      simp only [Bool.false_eq_true, if_neg, not_false_iff]
      rw [batchFold_spec _ _ (by simp)]
      refine ⟨calls.foldl (fun acc c => c.modified.foldl addUnique acc)
        s.toBatchModified, ?_⟩
      by_cases hE : (calls.foldl (fun acc c => c.modified.foldl addUnique acc)
          s.toBatchModified).isEmpty <;>
        simp [Doc.notify, hE, Doc.addToUndoStack]
  | undoA =>
    show ∃ M, ((Doc.undo s).1).notifyLog = _
    unfold Doc.undo
    cases hb : s.isBatching with
    | true => exact ⟨[], by simp⟩
    | false =>
      simp only [Bool.false_eq_true, if_neg, not_false_iff]
      cases hl : s.undoStack.getLast? with
      | none => exact ⟨[], by simp⟩
      | some ops =>
        cases herr : (Doc.applyOps s.pool ops).2.2 with
        | some msg => exact ⟨[], by simp [herr]⟩
        | none =>
          refine ⟨collectModified (Doc.applyOps s.pool ops).2.1, ?_⟩
          simp only [herr]
          by_cases hE : (collectModified (Doc.applyOps s.pool ops).2.1).isEmpty <;>
            simp [Doc.notify, hE]
  | redoA =>
    show ∃ M, ((Doc.redo s).1).notifyLog = _
    unfold Doc.redo
    cases hb : s.isBatching with
    | true => exact ⟨[], by simp⟩
    | false =>
      simp only [Bool.false_eq_true, if_neg, not_false_iff]
      cases hl : s.redoStack.getLast? with
      | none => exact ⟨[], by simp⟩
      | some ops =>
        cases herr : (Doc.applyOps s.pool ops).2.2 with
        | some msg => exact ⟨[], by simp [herr]⟩
        | none =>
          refine ⟨collectModified (Doc.applyOps s.pool ops).2.1, ?_⟩
          simp only [herr]
          by_cases hE : (collectModified (Doc.applyOps s.pool ops).2.1).isEmpty <;>
            simp [Doc.notify, hE]
  | remoteA ops =>
    show ∃ M, ((Doc.applyRemoteOperations s ops).1).notifyLog = _
    unfold Doc.applyRemoteOperations
    cases herr : (Doc.applyOps s.pool ops).2.2 with
    | some msg => exact ⟨[], by simp [herr]⟩
    | none =>
      refine ⟨collectModified (Doc.applyOps s.pool ops).2.1, ?_⟩
      simp only [herr]
      by_cases hE : (collectModified (Doc.applyOps s.pool ops).2.1).isEmpty <;>
        simp [Doc.notify, hE]

/-- One top-level action preserves "no notification round is empty". -/
theorem runAction_notify_nonempty (s : Doc) (a : DocAction)
    (h : ∀ n ∈ s.notifyLog, n ≠ []) :
    ∀ n ∈ (Doc.runAction s a).notifyLog, n ≠ [] := by
  obtain ⟨M, hM⟩ := runAction_notifyLog_shape s a
  intro n hn
  rw [hM, List.mem_append] at hn
  rcases hn with hn | hn
  · exact h n hn
  · cases hE : M.isEmpty with
    | true => rw [hE] at hn; simp at hn
    | false =>
      rw [hE] at hn
      simp only [Bool.false_eq_true, if_neg, not_false_iff, List.mem_singleton] at hn
      rw [hn]
      cases M with
      | nil => simp at hE
      | cons a as => simp

/-- Claim C10: subscribers are never invoked with an empty node set.  Over
every sequence of commits — dispatch, batch, remote application, undo,
redo — starting from a document whose notification log has no empty
round, every notification round carries a nonempty node set: a commit
whose modified set is empty calls no subscriber (`#notify` returns before
iterating the subscribers). -/
theorem c10_no_empty_notification (s : Doc) (acts : List DocAction)
    (h : ∀ n ∈ s.notifyLog, n ≠ []) :
    ∀ n ∈ (Doc.runActions s acts).notifyLog, n ≠ [] := by
  induction acts generalizing s with
  | nil => simpa [Doc.runActions] using h
  | cons a as ih =>
    rw [Doc.runActions, List.foldl_cons]
    exact ih (Doc.runAction s a) (runAction_notify_nonempty s a h)

theorem c10_witness :
    ([] : List NodeId) ∉ (Doc.runActions emptyDoc
      [DocAction.dispatchA [] [] [], DocAction.remoteA [Op.deleteCrdt "x"],
       DocAction.undoA, DocAction.redoA, DocAction.batchA []]).notifyLog :=
  fun hmem =>
    c10_no_empty_notification emptyDoc
      [DocAction.dispatchA [] [] [], DocAction.remoteA [Op.deleteCrdt "x"],
       DocAction.undoA, DocAction.redoA, DocAction.batchA []]
      (by simp [emptyDoc]) [] hmem rfl

/-! ### Claim C6 -/

/-- The index-building scan keeps no root candidate when every record has
a parent. -/
theorem loadScan_root_none (items : List SerializedCrdtWithId)
    (acc : List (Key × List SerializedCrdtWithId))
    (h : ∀ t ∈ items, t.2.parentId ≠ none) :
    (items.foldl loadScanStep (acc, none)).2 = none := by
  induction items generalizing acc with
  | nil => rfl
  | cons t ts ih =>
    rw [List.foldl_cons]
    cases hp : t.2.parentId with
    | none => exact absurd hp (h t (List.mem_cons_self t ts))
    | some pid =>
      have hstep : loadScanStep (acc, none) t =
          (match lookupKV acc pid with
           | some children => (setKV acc pid (children ++ [t]), none)
           | none => (acc ++ [(pid, [t])], none)) := by
        simp [loadScanStep, hp]
      rw [hstep]
      cases hial : lookupKV acc pid with
      | some children =>
        simpa [hial] using ih _ (fun t' ht' => h t' (List.mem_cons_of_mem t ht'))
      | none =>
        simpa [hial] using ih _ (fun t' ht' => h t' (List.mem_cons_of_mem t ht'))

/-- An input for `Doc.load` with two parentless Object records. -/
def twoRootsInput : List SerializedCrdtWithId :=
  [("0:0", .sObj none none []), ("0:1", .sObj none none [])]

/-- Counterexample to claim C6: the claim says `Doc.load` fails when two
or more entries lack a `parentId`, but on this two-parentless-record
input `load` succeeds — `root = tuple` is re-assigned per parentless
tuple, so the last one silently wins and becomes the document root. -/
theorem c6_counterexample :
    (Doc.load twoRootsInput 1).toOption.map (fun d => d.rootId) =
      some (some "0:1") := by rfl

/-- Claim C6 as amended: `Doc.load` fails on an empty record list and
fails when no entry lacks a `parentId`; but with two or more parentless
entries it does not fail — the last parentless entry is taken as the
root. -/
theorem c6_amended (actor : Nat) :
    (Doc.load [] actor = .error "Internal error: cannot load storage without items") ∧
    (∀ items : List SerializedCrdtWithId, items ≠ [] →
      (∀ t ∈ items, t.2.parentId ≠ none) →
      Doc.load items actor = .error "Root can't be null") ∧
    ((Doc.load twoRootsInput 1).toOption.map (fun d => d.rootId) =
      some (some "0:1")) := by
  refine ⟨rfl, ?_, rfl⟩
  intro items hne h
  have hlen : ¬(items.length = 0) := by
    simpa [List.length_eq_zero] using hne
  have hroot := loadScan_root_none items [] h
  simp only [Doc.load, hlen, if_neg, not_false_iff]
  rw [hroot]

theorem c6_amended_witness :
    Doc.load [("0:0", SerializedCrdt.sObj (some "p") none [])] 3 =
      .error "Root can't be null" :=
  (c6_amended 3).2.1 [("0:0", SerializedCrdt.sObj (some "p") none [])]
    (by decide) (by decide)

/-! ### Claim C2 -/

/-- Claim C2: for every function run by `batch` — the calls it performed
before returning or throwing — the commit in the `finally` block happens
exactly once: one broadcast invocation carrying the concatenated forward
ops, at most one subscriber notification round, the concatenated reverse
list of all mutations pushed as one undo-stack entry, the redo stack
cleared, and the batch buffer reset so nothing accumulated in this batch
reaches a later commit. -/
theorem c2_batch_atomicity (s : Doc) (calls : List BatchCall)
    (hb : s.isBatching = false)
    (h1 : s.toBatchOps = []) (h2 : s.toBatchReverseOps = [])
    (h3 : s.toBatchModified = []) :
    (Doc.batch s calls).2 = none ∧
    ((Doc.batch s calls).1).broadcasts =
      s.broadcasts ++ [(calls.map (·.ops)).flatten] ∧
    ((Doc.batch s calls).1).notifyLog.length ≤ s.notifyLog.length + 1 ∧
    ((Doc.batch s calls).1).undoStack =
      (if 50 ≤ s.undoStack.length then s.undoStack.drop 1 else s.undoStack) ++
        [(calls.map (·.reverse)).flatten] ∧
    ((Doc.batch s calls).1).redoStack = [] ∧
    ((Doc.batch s calls).1).toBatchOps = [] ∧
    ((Doc.batch s calls).1).toBatchReverseOps = [] ∧
    ((Doc.batch s calls).1).toBatchModified = [] ∧
    ((Doc.batch s calls).1).isBatching = false := by
  unfold Doc.batch
  simp only [hb, Bool.false_eq_true, if_neg, not_false_iff]
  rw [batchFold_spec _ _ (by simp)]
  by_cases hE : (calls.foldl (fun acc c => c.modified.foldl addUnique acc)
      ([] : List NodeId)) = [] <;>
    refine ⟨trivial, ?_, ?_, ?_, ?_, ?_, ?_, ?_, ?_⟩ <;>
      simp [h1, h2, h3, Doc.notify, Doc.addToUndoStack, hE]

/-- A nonempty batch on the empty document. -/
def c2calls : List BatchCall :=
  [⟨[Op.deleteCrdt "a"], [Op.deleteCrdt "ra"], ["n1"]⟩,
   ⟨[Op.deleteCrdt "b"], [Op.deleteCrdt "rb"], ["n2"]⟩]

theorem c2_witness :
    (Doc.batch emptyDoc c2calls).2 = none ∧
    ((Doc.batch emptyDoc c2calls).1).broadcasts =
      [[Op.deleteCrdt "a", Op.deleteCrdt "b"]] ∧
    ((Doc.batch emptyDoc c2calls).1).undoStack =
      [[Op.deleteCrdt "ra", Op.deleteCrdt "rb"]] ∧
    ((Doc.batch emptyDoc c2calls).1).toBatchOps = [] := by
  obtain ⟨ha, hbr, _, hu, _, ht, _, _, _⟩ :=
    c2_batch_atomicity emptyDoc c2calls rfl rfl rfl rfl
  exact ⟨ha, by rw [hbr]; rfl, by rw [hu]; rfl, ht⟩

/-! ### Claim C4 -/

/-- `#notify` touches nothing but the notification log. -/
theorem notify_frame (s : Doc) (m : List NodeId) :
    (Doc.notify s m).pool = s.pool ∧
    (Doc.notify s m).undoStack = s.undoStack ∧
    (Doc.notify s m).redoStack = s.redoStack ∧
    (Doc.notify s m).isBatching = s.isBatching ∧
    (Doc.notify s m).broadcasts = s.broadcasts ∧
    (Doc.notify s m).toBatchOps = s.toBatchOps ∧
    (Doc.notify s m).toBatchReverseOps = s.toBatchReverseOps ∧
    (Doc.notify s m).toBatchModified = s.toBatchModified ∧
    (Doc.notify s m).rootId = s.rootId := by
  unfold Doc.notify
  split <;> simp

/-- `#addToUndoStack` keeps the stack within the 50-entry bound. -/
theorem addToUndoStack_length (s : Doc) (e : List Op)
    (h : s.undoStack.length ≤ 50) :
    (Doc.addToUndoStack s e).undoStack.length ≤ 50 := by
  unfold Doc.addToUndoStack
  by_cases h50 : 50 ≤ s.undoStack.length <;>
    simp [h50, List.length_append, List.length_drop] <;> omega

/-- Every top-level action preserves "not batching, and the undo and redo
stacks together hold at most 50 entries".  `redo` pushes onto the undo
stack without the eviction check, but it can only fire when the redo
stack is nonempty, so the sum bound still limits the undo stack. -/
theorem runAction_stack_inv (s : Doc) (a : DocAction)
    (hb : s.isBatching = false)
    (hlen : s.undoStack.length + s.redoStack.length ≤ 50) :
    (Doc.runAction s a).isBatching = false ∧
    (Doc.runAction s a).undoStack.length + (Doc.runAction s a).redoStack.length ≤ 50 := by
  cases a with
  | dispatchA ops reverse modified =>
    show (Doc.dispatch s ops reverse modified).isBatching = false ∧
      (Doc.dispatch s ops reverse modified).undoStack.length +
        (Doc.dispatch s ops reverse modified).redoStack.length ≤ 50
    unfold Doc.dispatch
    simp only [hb, Bool.false_eq_true, if_neg, not_false_iff]
    by_cases hE : (modified.foldl addUnique []) = [] <;>
      simp [Doc.notify, hE, Doc.addToUndoStack] <;>
      refine ⟨hb, ?_⟩ <;>
      by_cases h50 : 50 ≤ s.undoStack.length <;>
        simp [h50, List.length_tail] <;> omega
  | batchA calls =>
    show ((Doc.batch s calls).1).isBatching = false ∧
      ((Doc.batch s calls).1).undoStack.length +
        ((Doc.batch s calls).1).redoStack.length ≤ 50
    unfold Doc.batch
    simp only [hb, Bool.false_eq_true, if_neg, not_false_iff]
    rw [batchFold_spec _ _ (by simp)]
    by_cases hE : (calls.foldl (fun acc c => c.modified.foldl addUnique acc)
        s.toBatchModified) = [] <;>
      simp [Doc.notify, hE, Doc.addToUndoStack] <;>
      by_cases h50 : 50 ≤ s.undoStack.length <;>
        simp [h50, List.length_tail] <;> omega
  | undoA =>
    show ((Doc.undo s).1).isBatching = false ∧
      ((Doc.undo s).1).undoStack.length + ((Doc.undo s).1).redoStack.length ≤ 50
    unfold Doc.undo
    simp only [hb, Bool.false_eq_true, if_neg, not_false_iff]
    cases hl : s.undoStack.getLast? with
    | none => exact ⟨hb, hlen⟩
    | some ops =>
      have hpos : 1 ≤ s.undoStack.length := by
        cases hu : s.undoStack with
        | nil => rw [hu] at hl; simp at hl
        | cons x xs => simp [hu]
      cases herr : (Doc.applyOps s.pool ops).2.2 with
      | some msg =>
        simp only [herr]
        simp [List.length_dropLast]
        omega
      | none =>
        simp only [herr]
        by_cases hE : (collectModified (Doc.applyOps s.pool ops).2.1) = [] <;>
          simp [Doc.notify, hE, List.length_dropLast, List.length_append] <;>
          omega
  | redoA =>
    show ((Doc.redo s).1).isBatching = false ∧
      ((Doc.redo s).1).undoStack.length + ((Doc.redo s).1).redoStack.length ≤ 50
    unfold Doc.redo
    simp only [hb, Bool.false_eq_true, if_neg, not_false_iff]
    cases hl : s.redoStack.getLast? with
    | none => exact ⟨hb, hlen⟩
    | some ops =>
      have hpos : 1 ≤ s.redoStack.length := by
        cases hu : s.redoStack with
        | nil => rw [hu] at hl; simp at hl
        | cons x xs => simp [hu]
      cases herr : (Doc.applyOps s.pool ops).2.2 with
      | some msg =>
        simp only [herr]
        simp [List.length_dropLast]
        omega
      | none =>
        simp only [herr]
        by_cases hE : (collectModified (Doc.applyOps s.pool ops).2.1) = [] <;>
          simp [Doc.notify, hE, List.length_dropLast, List.length_append] <;>
          omega
  | remoteA ops =>
    show ((Doc.applyRemoteOperations s ops).1).isBatching = false ∧
      ((Doc.applyRemoteOperations s ops).1).undoStack.length +
        ((Doc.applyRemoteOperations s ops).1).redoStack.length ≤ 50
    unfold Doc.applyRemoteOperations
    cases herr : (Doc.applyOps s.pool ops).2.2 with
    | some msg => simpa [herr] using ⟨hb, hlen⟩
    | none =>
      simp only [herr]
      by_cases hE : (collectModified (Doc.applyOps s.pool ops).2.1) = [] <;>
        simpa [Doc.notify, hE] using ⟨hb, hlen⟩

/-- The invariant carried over a whole action sequence. -/
theorem runActions_stack_inv (acts : List DocAction) (s : Doc)
    (hb : s.isBatching = false)
    (hlen : s.undoStack.length + s.redoStack.length ≤ 50) :
    (Doc.runActions s acts).isBatching = false ∧
    (Doc.runActions s acts).undoStack.length +
      (Doc.runActions s acts).redoStack.length ≤ 50 := by
  induction acts generalizing s with
  | nil => exact ⟨hb, hlen⟩
  | cons a as ih =>
    rw [Doc.runActions, List.foldl_cons]
    obtain ⟨hb', hlen'⟩ := runAction_stack_inv s a hb hlen
    exact ih (Doc.runAction s a) hb' hlen'

/-- Claim C4: over every sequence of mutator commits, batches, undos,
redos and remote bursts, the undo stack never exceeds 50 entries; and
when `#addToUndoStack` pushes onto a full stack it first discards the
oldest entry (the head — entries are pushed at the tail), i.e. FIFO
eviction. -/
theorem c4_undo_stack_bounded :
    (∀ (s : Doc) (acts : List DocAction), s.isBatching = false →
      s.undoStack.length + s.redoStack.length ≤ 50 →
      (Doc.runActions s acts).undoStack.length ≤ 50) ∧
    (∀ (s : Doc) (e : List Op), s.undoStack.length = 50 →
      (Doc.addToUndoStack s e).undoStack = s.undoStack.drop 1 ++ [e]) := by
  constructor
  · intro s acts hb hlen
    have h := (runActions_stack_inv acts s hb hlen).2
    omega
  · intro s e h
    unfold Doc.addToUndoStack
    rw [if_pos (by omega)]

/-- A document with a full undo stack. -/
def fullUndoDoc : Doc := { emptyDoc with undoStack := List.replicate 50 [] }

theorem c4_witness :
    (Doc.runActions emptyDoc
      [DocAction.dispatchA [] [Op.deleteCrdt "r"] [], DocAction.undoA,
       DocAction.redoA]).undoStack.length ≤ 50 ∧
    (Doc.addToUndoStack fullUndoDoc [Op.deleteCrdt "e"]).undoStack =
      (List.replicate 50 ([] : List Op)).drop 1 ++ [[Op.deleteCrdt "e"]] :=
  ⟨c4_undo_stack_bounded.1 emptyDoc _ rfl (by simp [emptyDoc]),
   c4_undo_stack_bounded.2 fullUndoDoc [Op.deleteCrdt "e"] (by simp [fullUndoDoc, emptyDoc])⟩

/-! ### Claim C1 -/

/-- One `#applyUpdate` loop step only touches its own key's entries in the
object map and in `propToLastUpdate`. -/
theorem applyUpdateStep_ne (fuel : Nat) (isLocal : Bool) (opId : NodeId)
    (st : Pool × List (Key × OVal) × List (Key × NodeId) × Bool) (kv : Key × OVal)
    (k : Key) (hk : k ≠ kv.1) :
    lookupKV (LiveObject.applyUpdateStep fuel isLocal opId st kv).2.1 k =
      lookupKV st.2.1 k ∧
    lookupKV (LiveObject.applyUpdateStep fuel isLocal opId st kv).2.2.1 k =
      lookupKV st.2.2.1 k := by
  unfold LiveObject.applyUpdateStep
  cases isLocal with
  | true =>
    constructor <;> simp [lookupKV_setKV, hk]
  | false =>
    cases hp : lookupKV st.2.2.1 kv.1 with
    | none =>
      constructor <;> simp [hp, lookupKV_setKV, hk]
    | some pending =>
      by_cases hpe : pending == opId <;>
        constructor <;> simp [hp, hpe, lookupKV_setKV, lookupKV_eraseKV, hk]

/-- The `#applyUpdate` loop leaves keys outside the op's data untouched. -/
theorem applyUpdateFold_not_mem (fuel : Nat) (isLocal : Bool) (opId : NodeId)
    (data : List (Key × OVal))
    (st : Pool × List (Key × OVal) × List (Key × NodeId) × Bool) (k : Key)
    (hk : k ∉ data.map Prod.fst) :
    lookupKV (data.foldl (LiveObject.applyUpdateStep fuel isLocal opId) st).2.1 k =
      lookupKV st.2.1 k ∧
    lookupKV (data.foldl (LiveObject.applyUpdateStep fuel isLocal opId) st).2.2.1 k =
      lookupKV st.2.2.1 k := by
  induction data generalizing st with
  | nil => exact ⟨rfl, rfl⟩
  | cons kv rest ih =>
    rw [List.map_cons, List.mem_cons] at hk
    push_neg at hk
    rw [List.foldl_cons]
    obtain ⟨h1, h2⟩ := applyUpdateStep_ne fuel isLocal opId st kv k hk.1
    obtain ⟨h3, h4⟩ := ih _ hk.2
    exact ⟨h3.trans h1, h4.trans h2⟩

/-- The remote `#applyUpdate` loop, observed at one key of the op: apply
when no pending local update, acknowledge (clear and skip) when the
pending entry is the op's `opId`, and skip keeping the entry otherwise. -/
theorem applyUpdateFold_remote_at_key (fuel : Nat) (opId : NodeId)
    (data : List (Key × OVal))
    (st : Pool × List (Key × OVal) × List (Key × NodeId) × Bool)
    (k : Key) (v : OVal)
    (hmem : (k, v) ∈ data) (hnd : (data.map Prod.fst).Nodup) :
    (lookupKV st.2.2.1 k = none →
      lookupKV (data.foldl (LiveObject.applyUpdateStep fuel false opId) st).2.1 k =
        some v) ∧
    (lookupKV st.2.2.1 k = some opId →
      lookupKV (data.foldl (LiveObject.applyUpdateStep fuel false opId) st).2.2.1 k =
        none ∧
      lookupKV (data.foldl (LiveObject.applyUpdateStep fuel false opId) st).2.1 k =
        lookupKV st.2.1 k) ∧
    (∀ x, lookupKV st.2.2.1 k = some x → x ≠ opId →
      lookupKV (data.foldl (LiveObject.applyUpdateStep fuel false opId) st).2.1 k =
        lookupKV st.2.1 k ∧
      lookupKV (data.foldl (LiveObject.applyUpdateStep fuel false opId) st).2.2.1 k =
        some x) := by
  induction data generalizing st with
  | nil => simp at hmem
  | cons kv rest ih =>
    rw [List.map_cons, List.nodup_cons] at hnd
    rw [List.foldl_cons]
    rcases List.mem_cons.mp hmem with hhead | htail
    · -- our key is processed by this step; the rest of the loop cannot
      -- touch it again (keys are distinct)
      have hkv : kv = (k, v) := hhead.symm
      subst hkv
      have hrest : k ∉ rest.map Prod.fst := hnd.1
      obtain ⟨hm, hp⟩ := applyUpdateFold_not_mem fuel false opId rest _ k hrest
      refine ⟨?_, ?_, ?_⟩
      · intro h0
        rw [hm]
        unfold LiveObject.applyUpdateStep
        simp [h0, lookupKV_setKV]
      · intro h0
        constructor
        · rw [hp]
          unfold LiveObject.applyUpdateStep
          simp [h0, lookupKV_eraseKV]
        · rw [hm]
          unfold LiveObject.applyUpdateStep
          simp [h0]
      · intro x h0 hx
        have hxne : (x == opId) = false := beq_eq_false_iff_ne.mpr hx
        constructor
        · rw [hm]
          unfold LiveObject.applyUpdateStep
          simp [h0, hxne]
        · rw [hp]
          unfold LiveObject.applyUpdateStep
          simp [h0, hxne]
    · -- our key sits later in the data; this step touches only kv.1 ≠ k
      have hk : k ≠ kv.1 := by
        intro hkk
        exact hnd.1 (hkk ▸ (List.mem_map.mpr ⟨(k, v), htail, rfl⟩))
      obtain ⟨h1, h2⟩ := applyUpdateStep_ne fuel false opId st kv k hk
      obtain ⟨ih1, ih2, ih3⟩ := ih _ htail hnd.2
      refine ⟨?_, ?_, ?_⟩
      · intro h0
        exact ih1 (h2.trans h0)
      · intro h0
        obtain ⟨a, b⟩ := ih2 (h2.trans h0)
        exact ⟨a, b.trans h1⟩
      · intro x h0 hx
        obtain ⟨a, b⟩ := ih3 x (h2.trans h0) hx
        exact ⟨a.trans h1, b⟩

/-- The pool produced by a remote `#applyUpdate` on an object: the loop's
final map and `propToLastUpdate` are written back into the object's
entry (regardless of whether any key modified the object). -/
theorem applyUpdate_pool (fuel : Nat) (p : Pool) (selfId : NodeId)
    (data : List (Key × OVal)) (oid : NodeId) (epar : Option NodeId)
    (epk : Option Key) (m : List (Key × OVal)) (ptlu : List (Key × NodeId))
    (hself : lookupKV p.items selfId = some ⟨epar, epk, .objD m ptlu⟩) :
    (LiveObject.applyUpdate fuel p selfId data (some oid)).1 =
      setEntry
        (data.foldl (LiveObject.applyUpdateStep fuel false oid) (p, m, ptlu, false)).1
        selfId
        ⟨epar, epk,
         .objD (data.foldl (LiveObject.applyUpdateStep fuel false oid)
             (p, m, ptlu, false)).2.1
           (data.foldl (LiveObject.applyUpdateStep fuel false oid)
             (p, m, ptlu, false)).2.2.1⟩ := by
  unfold LiveObject.applyUpdate
  rw [hself]
  by_cases hIM : (data.foldl (LiveObject.applyUpdateStep fuel false oid)
      (p, m, ptlu, false)).2.2.2 <;> simp [hIM, setEntry]

/-- Claim C1: a remote `UpdateObject` op (carrying an `opId`), applied to
an attached `LiveObject`, treats each key of its data by the three-way
rule — no pending `propToLastUpdate` entry: the new value is stored;
pending entry equal to the op's `opId`: the entry is removed and the
stored value is unchanged; pending entry different from the `opId`: the
stored value is unchanged and the pending entry is kept. -/
theorem c1_remote_update_per_key (fuel : Nat) (p : Pool) (selfId : NodeId)
    (epar : Option NodeId) (epk : Option Key)
    (m : List (Key × OVal)) (ptlu : List (Key × NodeId))
    (data : List (Key × OVal)) (oid : NodeId) (k : Key) (v : OVal)
    (hself : lookupKV p.items selfId = some ⟨epar, epk, .objD m ptlu⟩)
    (hnd : (data.map Prod.fst).Nodup)
    (hmem : (k, v) ∈ data) :
    ∃ m' ptlu',
      objMap (LiveObject.applyUpdate fuel p selfId data (some oid)).1 selfId =
        some m' ∧
      objPtlu (LiveObject.applyUpdate fuel p selfId data (some oid)).1 selfId =
        some ptlu' ∧
      (lookupKV ptlu k = none → lookupKV m' k = some v) ∧
      (lookupKV ptlu k = some oid →
        lookupKV ptlu' k = none ∧ lookupKV m' k = lookupKV m k) ∧
      (∀ x, lookupKV ptlu k = some x → x ≠ oid →
        lookupKV m' k = lookupKV m k ∧ lookupKV ptlu' k = some x) := by
  refine ⟨(data.foldl (LiveObject.applyUpdateStep fuel false oid)
      (p, m, ptlu, false)).2.1,
    (data.foldl (LiveObject.applyUpdateStep fuel false oid)
      (p, m, ptlu, false)).2.2.1, ?_, ?_, ?_, ?_, ?_⟩
  · rw [applyUpdate_pool fuel p selfId data oid epar epk m ptlu hself]
    simp [objMap, setEntry, lookupKV_setKV]
  · rw [applyUpdate_pool fuel p selfId data oid epar epk m ptlu hself]
    simp [objPtlu, setEntry, lookupKV_setKV]
  · exact (applyUpdateFold_remote_at_key fuel oid data (p, m, ptlu, false) k v
      hmem hnd).1
  · exact (applyUpdateFold_remote_at_key fuel oid data (p, m, ptlu, false) k v
      hmem hnd).2.1
  · exact (applyUpdateFold_remote_at_key fuel oid data (p, m, ptlu, false) k v
      hmem hnd).2.2

/-- A pool holding one object with a pending local update on key `b`. -/
def c1pool : Pool :=
  { items := [("o", ⟨none, none,
      .objD [("a", OVal.scalar "old"), ("b", OVal.scalar "oldb")] [("b", "1:0")]⟩)],
    actor := 0, clock := 1, opClock := 0 }

def c1data : List (Key × OVal) := [("a", OVal.scalar "na"), ("b", OVal.scalar "nb")]

theorem c1_witness :
    ∃ m' ptlu',
      objMap (LiveObject.applyUpdate 1 c1pool "o" c1data (some "1:0")).1 "o" =
        some m' ∧
      objPtlu (LiveObject.applyUpdate 1 c1pool "o" c1data (some "1:0")).1 "o" =
        some ptlu' ∧
      (lookupKV [("b", "1:0")] "a" = none →
        lookupKV m' "a" = some (OVal.scalar "na")) ∧
      (lookupKV [("b", "1:0")] "a" = some "1:0" →
        lookupKV ptlu' "a" = none ∧
        lookupKV m' "a" =
          lookupKV [("a", OVal.scalar "old"), ("b", OVal.scalar "oldb")] "a") ∧
      (∀ x, lookupKV [("b", "1:0")] "a" = some x → x ≠ "1:0" →
        lookupKV m' "a" =
          lookupKV [("a", OVal.scalar "old"), ("b", OVal.scalar "oldb")] "a" ∧
        lookupKV ptlu' "a" = some x) :=
  c1_remote_update_per_key 1 c1pool "o" none none
    [("a", OVal.scalar "old"), ("b", OVal.scalar "oldb")] [("b", "1:0")]
    c1data "1:0" "a" (OVal.scalar "na") (by decide) (by decide) (by decide)

/-! ### Claim C5 -/

/-- `dispatch` never rewrites the pool: mutators change the pool before
calling it. -/
theorem dispatch_pool (s : Doc) (ops reverse : List Op) (modified : List NodeId) :
    (Doc.dispatch s ops reverse modified).pool = s.pool := by
  unfold Doc.dispatch
  split
  · rfl
  · exact (notify_frame _ _).1

/-- One `update` loop step writes `propToLastUpdate[key] := opId`,
whatever the value's shape. -/
theorem updateStep_ptlu (selfId opId : NodeId) (st : UpdateLoopState)
    (kv : Key × NewVal) (st' : UpdateLoopState)
    (h : LiveObject.updateStep selfId opId st kv = .ok st') :
    st'.ptlu = setKV st.ptlu kv.1 opId := by
  unfold LiveObject.updateStep at h
  simp only [bind, Except.bind] at h
  repeat' split at h
  all_goals cases h
  all_goals rfl

/-- The `update` loop's final `propToLastUpdate`: every override key maps
to the minted `opId`; every other key is untouched. -/
theorem updateFold_ptlu (selfId opId : NodeId) (overrides : List (Key × NewVal))
    (st st' : UpdateLoopState)
    (h : overrides.foldlM (LiveObject.updateStep selfId opId) st = .ok st') :
    ∀ k, lookupKV st'.ptlu k =
      if k ∈ overrides.map Prod.fst then some opId else lookupKV st.ptlu k := by
  induction overrides generalizing st with
  | nil =>
    intro k
    simp only [List.foldlM_nil] at h
    cases h
    simp
  | cons kv rest ih =>
    intro k
    rw [List.foldlM_cons] at h
    cases hstep : LiveObject.updateStep selfId opId st kv with
    | error msg => rw [hstep] at h; cases h
    | ok st1 =>
      rw [hstep] at h
      simp only [bind, Except.bind] at h
      have h1 := ih st1 h k
      have h2 := updateStep_ptlu selfId opId st kv st1 hstep
      simp only [List.map_cons]
      by_cases hk1 : k ∈ rest.map Prod.fst
      · rw [h1, if_pos hk1, if_pos (by simp [hk1])]
      · by_cases hk2 : k = kv.1
        · rw [h1, if_neg hk1, if_pos (by simp [hk2]), h2, lookupKV_setKV,
            if_pos hk2]
        · rw [h1, if_neg hk1, if_neg (by simp [hk1, hk2]), h2, lookupKV_setKV,
            if_neg hk2]

/-- Counterexample context for claim C5: one empty attached object. -/
def c5pool : Pool :=
  { items := [("o", ⟨none, none, .objD [] []⟩)], actor := 0, clock := 1,
    opClock := 0 }

def c5doc : Doc :=
  { pool := c5pool, rootId := some "o", undoStack := [], redoStack := [],
    isBatching := false, toBatchOps := [], toBatchReverseOps := [],
    toBatchModified := [], broadcasts := [], notifyLog := [] }

/-- Counterexample to claim C5: `update` with a single node-valued key
`a` (a fresh `LiveRegister`) — per the claim no `propToLastUpdate` entry
should be written, since no key is set to a scalar value; but the loop
writes `propToLastUpdate[key] := opId` for every key of the overrides, so
after the call the table maps `a` to the minted op id. -/
theorem c5_counterexample :
    (LiveObject.update c5doc "o" [("a", NewVal.nNode (NewTree.nReg "v"))]).2 =
      none ∧
    objPtlu (LiveObject.update c5doc "o"
        [("a", NewVal.nNode (NewTree.nReg "v"))]).1.pool "o" =
      some [("a", "0:0")] := by
  constructor <;> rfl

/-- Claim C5 as amended: `LiveObject.update` on an attached object writes
a `propToLastUpdate` entry mapping the key to the freshly minted `opId`
for every key of the override object — keys set to node values included —
and touches no other key of the table. -/
theorem c5_amended (s : Doc) (selfId : NodeId)
    (overrides : List (Key × NewVal)) (r : Doc)
    (epar : Option NodeId) (epk : Option Key)
    (m : List (Key × OVal)) (ptlu : List (Key × NodeId))
    (hself : lookupKV s.pool.items selfId = some ⟨epar, epk, .objD m ptlu⟩)
    (hok : LiveObject.update s selfId overrides = (r, none)) :
    ∃ ptlu', objPtlu r.pool selfId = some ptlu' ∧
      ∀ k, lookupKV ptlu' k =
        if k ∈ overrides.map Prod.fst
        then some (mkIdent s.pool.actor s.pool.opClock)
        else lookupKV ptlu k := by
  have hgen1 : s.pool.generateOpId.1 = mkIdent s.pool.actor s.pool.opClock := rfl
  simp only [LiveObject.update, hself] at hok
  cases hloop : overrides.foldlM
      (LiveObject.updateStep selfId s.pool.generateOpId.1)
      { pool := s.pool.generateOpId.2, m := m, ptlu := ptlu, ops := [],
        reverseTail := [], reverseData := [], updatedProps := [] } with
  | error msg =>
    rw [hloop] at hok
    simp at hok
  | ok st =>
    rw [hloop] at hok
    simp only at hok
    have hr : r.pool = setEntry st.pool selfId ⟨epar, epk, .objD st.m st.ptlu⟩ := by
      have h1 := congrArg Prod.fst hok
      simp only at h1
      rw [← h1, dispatch_pool]
    refine ⟨st.ptlu, ?_, ?_⟩
    · rw [hr]
      simp [objPtlu, setEntry, lookupKV_setKV]
    · rw [← hgen1]
      exact updateFold_ptlu selfId s.pool.generateOpId.1 overrides _ st hloop

theorem c5_amended_witness :
    ∃ ptlu', objPtlu (LiveObject.update c5doc "o"
        [("x", NewVal.nScalar "1")]).1.pool "o" = some ptlu' ∧
      ∀ k, lookupKV ptlu' k =
        if k ∈ ([("x", NewVal.nScalar "1")] :
            List (Key × NewVal)).map Prod.fst
        then some (mkIdent c5doc.pool.actor c5doc.pool.opClock)
        else lookupKV ([] : List (Key × NodeId)) k :=
  c5_amended c5doc "o" [("x", NewVal.nScalar "1")]
    (LiveObject.update c5doc "o" [("x", NewVal.nScalar "1")]).1 none none [] []
    (by decide) (by rfl)

/-! ### Claim C3 -/

theorem get?_lt_length {α : Type} (l : List α) (i : Nat) (a : α)
    (h : l.get? i = some a) : i < l.length := by
  by_contra hc
  rw [List.get?_eq_none.mpr (Nat.le_of_not_lt hc)] at h
  cases h

/-- In a duplicate-free list, replacing the unique occurrence of `a` at
index `i` by something different removes `a`. -/
theorem not_mem_set_of_nodup {α : Type} [DecidableEq α] (l : List α) (i : Nat)
    (a x : α) (hnd : l.Nodup) (hget : l.get? i = some a) (hne : x ≠ a) :
    a ∉ l.set i x := by
  intro hmem
  obtain ⟨j, hj⟩ := List.mem_iff_get?.mp hmem
  by_cases hij : j = i
  · subst hij
    rw [List.get?_set_eq_of_lt x (by
      have := get?_lt_length l j a hget
      simpa using this)] at hj
    exact hne (Option.some.inj hj)
  · rw [List.get?_set_ne x l (fun he => hij he.symm)] at hj
    have he' : l[i]? = l[j]? := by
      simp only [← List.get?_eq_getElem?]
      rw [hget, hj]
    have hij' : i = j :=
      List.getElem?_inj (get?_lt_length l i a hget) hnd he'
    exact hij hij'.symm

/-- An element not sitting at the replaced index survives a `set`. -/
theorem mem_set_of_get_ne {α : Type} (l : List α) (i : Nat) (x a : α)
    (ha : a ∈ l) (hne : l.get? i ≠ some a) : a ∈ l.set i x := by
  obtain ⟨j, hj⟩ := List.mem_iff_get?.mp ha
  have hij : i ≠ j := fun he => hne (he ▸ hj)
  exact List.mem_iff_get?.mpr ⟨j, by rw [List.get?_set_ne x l hij]; exact hj⟩

theorem nodup_append_singleton {α : Type} (l : List α) (x : α)
    (h : l.Nodup) (hx : x ∉ l) : (l ++ [x]).Nodup := by
  rw [List.nodup_append]
  exact ⟨h, List.nodup_singleton x, fun a ha hb => by
    simp only [List.mem_singleton] at hb
    exact hx (hb ▸ ha)⟩

/-- `LiveList._attachChild` under a position collision: the existing child
at the colliding index is repositioned to the fresh temporary position in
the items array, and the new child is inserted at the colliding key. -/
theorem attachChildItems_collision (its : List (NodeId × Key))
    (childId c0 : NodeId) (key tempKey : Key) (i : Nat)
    (hidx : its.findIdx? (fun it => it.2 == key) = some i)
    (hget : its.get? i = some (c0, key))
    (htemp : tempKey = makePosition (some key) ((its.get? (i + 1)).map (·.2))) :
    LiveList.attachChildItems its childId key =
      sortByPos (its.set i (c0, tempKey) ++ [(childId, key)]) := by
  unfold LiveList.attachChildItems
  simp only [hidx, hget]
  rw [htemp]

/-- Claim C3 as amended: after a remote list creation whose `parentKey`
collides with an existing child's position, the invariant
`node.parent.child(node.parentKey) == node` holds for the newly attached
child and for every other child, but not for the displaced child: the
list stores it under the fresh temporary position while the child's own
`parentKey` still holds the colliding key, so resolving that key in the
parent yields the newly created child. -/
theorem c3_amended (fuel : Nat) (p : Pool) (listId childId c0 : NodeId)
    (epar : Option NodeId) (epk : Option Key) (its : List (NodeId × Key))
    (key tempKey : Key) (i : Nat) (childData : NodeData)
    (hlist : lookupKV p.items listId = some ⟨epar, epk, .listD its⟩)
    (hnd : (its.map Prod.snd).Nodup)
    (hidx : its.findIdx? (fun it => it.2 == key) = some i)
    (hget : its.get? i = some (c0, key))
    (htemp : tempKey = makePosition (some key) ((its.get? (i + 1)).map (·.2)))
    (hfresh : tempKey ∉ its.map Prod.snd)
    (hne : tempKey ≠ key)
    (hagree : ∀ c pos, (c, pos) ∈ its → parentKeyOf p c = some pos)
    (hchildfst : childId ∉ its.map Prod.fst)
    (hlistfst : listId ∉ its.map Prod.fst)
    (hchildlist : childId ≠ listId) :
    ∀ p' res, attachChild fuel p listId childId key childData = .ok (p', res) →
      (res = some (listId, [Op.deleteCrdt childId]) ∧
       listItemsOf p' listId =
         sortByPos (its.set i (c0, tempKey) ++ [(childId, key)]) ∧
       parentKeyOf p' childId = some key ∧
       childAtPos (listItemsOf p' listId) key = some childId ∧
       parentKeyOf p' c0 = some key ∧
       (c0, tempKey) ∈ listItemsOf p' listId ∧
       childAtPos (listItemsOf p' listId) key ≠ some c0 ∧
       (∀ c pos, (c, pos) ∈ its → c ≠ c0 →
         ((c, pos) ∈ listItemsOf p' listId ∧
          childAtPos (listItemsOf p' listId) pos = some c ∧
          parentKeyOf p' c = some pos))) := by
  intro p' res h
  have hred : attachChild fuel p listId childId key childData =
      .ok (setEntry (setEntry p childId ⟨some listId, some key, childData⟩) listId
             ⟨epar, epk, .listD (LiveList.attachChildItems its childId key)⟩,
           some (listId, [Op.deleteCrdt childId])) := by
    unfold attachChild
    rw [hlist]
    rfl
  rw [hred] at h
  have h1 : (setEntry (setEntry p childId ⟨some listId, some key, childData⟩) listId
        ⟨epar, epk, .listD (LiveList.attachChildItems its childId key)⟩,
       (some (listId, [Op.deleteCrdt childId]) : ApplyRes)) = (p', res) :=
    Except.ok.inj h
  have hp' : p' = setEntry (setEntry p childId ⟨some listId, some key, childData⟩)
      listId ⟨epar, epk, .listD (LiveList.attachChildItems its childId key)⟩ :=
    (congrArg Prod.fst h1).symm
  have hres : res = some (listId, [Op.deleteCrdt childId]) :=
    (congrArg Prod.snd h1).symm
  subst hp'
  have hitems := attachChildItems_collision its childId c0 key tempKey i hidx hget htemp
  -- basic facts about the new items array
  have hlen : i < its.length := get?_lt_length _ _ _ hget
  have hLI : listItemsOf
      (setEntry (setEntry p childId ⟨some listId, some key, childData⟩) listId
        ⟨epar, epk, .listD (LiveList.attachChildItems its childId key)⟩) listId =
      sortByPos (its.set i (c0, tempKey) ++ [(childId, key)]) := by
    simp [listItemsOf, setEntry, lookupKV_setKV, hitems]
  have hsnd1 : (its.set i (c0, tempKey)).map Prod.snd =
      (its.map Prod.snd).set i tempKey := List.map_set ..
  have hnd1 : ((its.set i (c0, tempKey)).map Prod.snd).Nodup := by
    rw [hsnd1]; exact hnd.set hfresh
  have hsndget : (its.map Prod.snd).get? i = some key := by
    rw [List.get?_map, hget]; rfl
  have hkeyout : key ∉ (its.set i (c0, tempKey)).map Prod.snd := by
    rw [hsnd1]
    exact not_mem_set_of_nodup _ i key tempKey hnd hsndget hne
  have hnd2 : ((its.set i (c0, tempKey) ++ [(childId, key)]).map Prod.snd).Nodup := by
    rw [List.map_append]
    exact nodup_append_singleton _ key hnd1 hkeyout
  have hndSorted :
      ((sortByPos (its.set i (c0, tempKey) ++ [(childId, key)])).map Prod.snd).Nodup := by
    exact ((sortByPos_perm _).map Prod.snd).nodup_iff.mpr hnd2
  have hmemNew : (childId, key) ∈ sortByPos (its.set i (c0, tempKey) ++ [(childId, key)]) :=
    mem_sortByPos.mpr (List.mem_append_right _ (List.mem_singleton.mpr rfl))
  have hchildAt : childAtPos (sortByPos (its.set i (c0, tempKey) ++ [(childId, key)]))
      key = some childId :=
    childAtPos_eq_of_mem _ childId key hndSorted hmemNew
  have hc0mem : (c0, key) ∈ its := List.mem_iff_get?.mpr ⟨i, hget⟩
  have hc0fst : c0 ∈ its.map Prod.fst := List.mem_map.mpr ⟨(c0, key), hc0mem, rfl⟩
  have hc0child : c0 ≠ childId := fun he => hchildfst (he ▸ hc0fst)
  have hc0list : c0 ≠ listId := fun he => hlistfst (he ▸ hc0fst)
  refine ⟨hres, hLI, ?_, ?_, ?_, ?_, ?_, ?_⟩
  · simp [parentKeyOf, setEntry, lookupKV_setKV, hchildlist]
  · rw [hLI]; exact hchildAt
  · have : parentKeyOf
        (setEntry (setEntry p childId ⟨some listId, some key, childData⟩) listId
          ⟨epar, epk, .listD (LiveList.attachChildItems its childId key)⟩) c0 =
        parentKeyOf p c0 := by
      simp [parentKeyOf, setEntry, lookupKV_setKV, hc0child, hc0list]
    rw [this]
    exact hagree c0 key hc0mem
  · rw [hLI]
    refine mem_sortByPos.mpr (List.mem_append_left _ ?_)
    refine List.mem_iff_get?.mpr ⟨i, ?_⟩
    exact List.get?_set_eq_of_lt _ (by simpa using hlen)
  · rw [hLI, hchildAt]
    intro hcontra
    exact hc0child (Option.some.inj hcontra).symm
  · intro c pos hcp hc0ne
    have hcfst : c ∈ its.map Prod.fst := List.mem_map.mpr ⟨(c, pos), hcp, rfl⟩
    have hcchild : c ≠ childId := fun he => hchildfst (he ▸ hcfst)
    have hclist : c ≠ listId := fun he => hlistfst (he ▸ hcfst)
    have hgetne : its.get? i ≠ some (c, pos) := by
      rw [hget]
      intro hx
      exact hc0ne (congrArg Prod.fst (Option.some.inj hx)).symm
    have hmem1 : (c, pos) ∈ its.set i (c0, tempKey) :=
      mem_set_of_get_ne its i (c0, tempKey) (c, pos) hcp hgetne
    have hmem' : (c, pos) ∈ sortByPos (its.set i (c0, tempKey) ++ [(childId, key)]) :=
      mem_sortByPos.mpr (List.mem_append_left _ hmem1)
    refine ⟨by rw [hLI]; exact hmem', ?_, ?_⟩
    · rw [hLI]
      exact childAtPos_eq_of_mem _ c pos hndSorted hmem'
    · have : parentKeyOf
          (setEntry (setEntry p childId ⟨some listId, some key, childData⟩) listId
            ⟨epar, epk, .listD (LiveList.attachChildItems its childId key)⟩) c =
          parentKeyOf p c := by
        simp [parentKeyOf, setEntry, lookupKV_setKV, hcchild, hclist]
      rw [this]
      exact hagree c pos hcp

/-- A pool holding root object `0:0`, a list `0:1` under key `l`, and a
register child `0:2` stored at position `"1"` with matching parentKey. -/
def c3pool : Pool :=
  { items := [("0:0", ⟨none, none, .objD [("l", OVal.nodeRef "0:1")] []⟩),
              ("0:1", ⟨some "0:0", some "l", .listD [("0:2", "1")]⟩),
              ("0:2", ⟨some "0:1", some "1", .regD "x"⟩)],
    actor := 0, clock := 3, opClock := 0 }

/-- Counterexample to claim C3: a remote list creation at the occupied
position `"1"` repositions the existing child `0:2` to the temporary
position `"2"` inside the list's items array, but `0:2`'s own
`parentKey` still reads `"1"` — so `parent.child(parentKey)` resolves to
the new node `9:9`, not to `0:2`: the invariant
`node.parent.child(node.parentKey) == node` does not survive the
repositioning. -/
theorem c3_counterexample :
    (Doc.applyOp c3pool (Op.createRegister "9:9" "0:1" "1" "y")).toOption.map
        (fun pr => parentKeyOf pr.1 "0:2") = some (some "1") ∧
    (Doc.applyOp c3pool (Op.createRegister "9:9" "0:1" "1" "y")).toOption.map
        (fun pr => childAtPos (listItemsOf pr.1 "0:1") "1") = some (some "9:9") ∧
    ("9:9" : NodeId) ≠ "0:2" := by
  refine ⟨rfl, rfl, by decide⟩

/-- The pool after attaching `9:9` at the colliding position. -/
def c3post : Pool :=
  setEntry (setEntry c3pool "9:9" ⟨some "0:1", some "1", NodeData.regD "y"⟩)
    "0:1" ⟨some "0:0", some "l",
      NodeData.listD (LiveList.attachChildItems [("0:2", "1")] "9:9" "1")⟩

theorem c3_amended_witness :
    (some ("0:1", [Op.deleteCrdt "9:9"]) : ApplyRes) =
      some ("0:1", [Op.deleteCrdt "9:9"]) ∧
    listItemsOf c3post "0:1" =
      sortByPos ([("0:2", "1")].set 0 ("0:2", "2") ++ [("9:9", "1")]) ∧
    parentKeyOf c3post "9:9" = some "1" ∧
    childAtPos (listItemsOf c3post "0:1") "1" = some "9:9" ∧
    parentKeyOf c3post "0:2" = some "1" ∧
    ("0:2", "2") ∈ listItemsOf c3post "0:1" ∧
    childAtPos (listItemsOf c3post "0:1") "1" ≠ some "0:2" ∧
    (∀ c pos, (c, pos) ∈ [("0:2", "1")] → c ≠ "0:2" →
      ((c, pos) ∈ listItemsOf c3post "0:1" ∧
       childAtPos (listItemsOf c3post "0:1") pos = some c ∧
       parentKeyOf c3post c = some pos)) :=
  c3_amended 4 c3pool "0:1" "9:9" "0:2" (some "0:0") (some "l") [("0:2", "1")]
    "1" "2" 0 (.regD "y") (by decide) (by decide) (by decide) (by decide)
    (by decide) (by decide) (by decide)
    (by
      intro c pos hm
      simp only [List.mem_singleton] at hm
      rw [show c = "0:2" from congrArg Prod.fst hm,
          show pos = "1" from congrArg Prod.snd hm]
      rfl)
    (by decide) (by decide) (by decide)
    c3post (some ("0:1", [Op.deleteCrdt "9:9"])) (by rfl)
